import Mathlib

/-!
Verification development for a UTXO blockchain indexer.

The development shallowly embeds the indexer's core: the relational state
(blocks, transactions, outputs tables), the repository operations issued
against it (including the uniqueness constraints the schema declares and the
conditional spent-flag update), the block validation pipeline
(height, content hash, input validity, value conservation), the atomic
apply of a block, the bounded rollback, and the structural validator that
guards untrusted JSON input.

Numeric values are modelled as exact rationals; JavaScript `number`
arithmetic on the small values involved is abstracted to `Rat`.
SHA-256 is implemented from FIPS 180-4 over byte lists, mirroring the
`createHash('sha256')` call in the source.
-/

set_option maxRecDepth 40000

set_option allowUnsafeReducibility true in
attribute [semireducible] Rat.add Rat.sub Rat.mul Rat.inv Rat.div

/-! ## SHA-256 (FIPS 180-4), bytes as `Nat < 256`, words as `Nat < 2^32` -/

/-- Truncate to a 32-bit word. -/
def w32 (x : Nat) : Nat := x % 4294967296

/-- Rotate a 32-bit word right by `n` bits. -/
def rotr (n x : Nat) : Nat := (x >>> n) ||| w32 (x <<< (32 - n))

/-- UTF-8 encoding of a single code point. -/
def utf8Encode (c : Nat) : List Nat :=
  if c < 128 then [c]
  else if c < 2048 then [192 + c / 64, 128 + c % 64]
  else if c < 65536 then [224 + c / 4096, 128 + (c / 64) % 64, 128 + c % 64]
  else [240 + c / 262144, 128 + (c / 4096) % 64, 128 + (c / 64) % 64, 128 + c % 64]

/-- UTF-8 bytes of a string, as Node's `hash.update(data)` encodes it. -/
def strBytes (s : String) : List Nat := s.data.flatMap (fun ch => utf8Encode ch.toNat)

/-- Big-endian 8-byte encoding of the message bit length. -/
def lenBytes (n : Nat) : List Nat :=
  [(n >>> 56) % 256, (n >>> 48) % 256, (n >>> 40) % 256, (n >>> 32) % 256,
   (n >>> 24) % 256, (n >>> 16) % 256, (n >>> 8) % 256, n % 256]

/-- SHA-256 padding: append `0x80`, zeros to 56 mod 64, then the bit length. -/
def padMessage (msg : List Nat) : List Nat :=
  let len := msg.length
  let zeros := (119 - (len % 64)) % 64
  msg ++ [128] ++ List.replicate zeros 0 ++ lenBytes (len * 8)

/-- Pack bytes into big-endian 32-bit words. -/
def toWords : List Nat → List Nat
  | a :: b :: c :: d :: rest => (a * 16777216 + b * 65536 + c * 256 + d) :: toWords rest
  | _ => []

/-- Split a word list into 16-word blocks. -/
def chunk16 : List Nat → List (List Nat)
  | w0 :: w1 :: w2 :: w3 :: w4 :: w5 :: w6 :: w7 ::
    w8 :: w9 :: w10 :: w11 :: w12 :: w13 :: w14 :: w15 :: rest =>
      [w0, w1, w2, w3, w4, w5, w6, w7, w8, w9, w10, w11, w12, w13, w14, w15] :: chunk16 rest
  | _ => []

def sigmaSmall0 (x : Nat) : Nat := (rotr 7 x) ^^^ (rotr 18 x) ^^^ (x >>> 3)

def sigmaSmall1 (x : Nat) : Nat := (rotr 17 x) ^^^ (rotr 19 x) ^^^ (x >>> 10)

def sigmaBig0 (x : Nat) : Nat := (rotr 2 x) ^^^ (rotr 13 x) ^^^ (rotr 22 x)

def sigmaBig1 (x : Nat) : Nat := (rotr 6 x) ^^^ (rotr 11 x) ^^^ (rotr 25 x)

/-- Extend the 16-word message schedule by `n` further words. -/
def extendSchedule (ws : List Nat) : Nat → List Nat
  | 0 => ws
  | n + 1 =>
    let prev := extendSchedule ws n
    let len := prev.length
    let get := fun (i : Nat) => prev.getD i 0
    prev ++ [w32 (sigmaSmall1 (get (len - 2)) + get (len - 7) +
                  sigmaSmall0 (get (len - 15)) + get (len - 16))]

/-- The 64 SHA-256 round constants. -/
def shaK : List Nat :=
  [1116352408, 1899447441, 3049323471, 3921009573, 961987163, 1508970993, 2453635748, 2870763221,
   3624381080, 310598401, 607225278, 1426881987, 1925078388, 2162078206, 2614888103, 3248222580,
   3835390401, 4022224774, 264347078, 604807628, 770255983, 1249150122, 1555081692, 1996064986,
   2554220882, 2821834349, 2952996808, 3210313671, 3336571891, 3584528711, 113926993, 338241895,
   666307205, 773529912, 1294757372, 1396182291, 1695183700, 1986661051, 2177026350, 2456956037,
   2730485921, 2820302411, 3259730800, 3345764771, 3516065817, 3600352804, 4094571909, 275423344,
   430227734, 506948616, 659060556, 883997877, 958139571, 1322822218, 1537002063, 1747873779,
   1955562222, 2024104815, 2227730452, 2361852424, 2428436474, 2756734187, 3204031479, 3329325298]

/-- Initial SHA-256 hash value. -/
def shaH0 : List Nat :=
  [1779033703, 3144134277, 1013904242, 2773480762, 1359893119, 2600822924, 528734635, 1541459225]

structure ShaState where
  a : Nat
  b : Nat
  c : Nat
  d : Nat
  e : Nat
  f : Nat
  g : Nat
  h : Nat

/-- One compression round. -/
def shaRound (st : ShaState) (wk : Nat × Nat) : ShaState :=
  let t1 := w32 (st.h + sigmaBig1 st.e + ((st.e &&& st.f) ^^^ ((4294967295 - st.e) &&& st.g)) +
                 wk.2 + wk.1)
  let t2 := w32 (sigmaBig0 st.a + ((st.a &&& st.b) ^^^ (st.a &&& st.c) ^^^ (st.b &&& st.c)))
  ⟨w32 (t1 + t2), st.a, st.b, st.c, w32 (st.d + t1), st.e, st.f, st.g⟩

/-- Compress one 16-word block into the running hash. -/
def compressBlock (hs : List Nat) (block : List Nat) : List Nat :=
  let ws := extendSchedule block 48
  let init : ShaState :=
    ⟨hs.getD 0 0, hs.getD 1 0, hs.getD 2 0, hs.getD 3 0,
     hs.getD 4 0, hs.getD 5 0, hs.getD 6 0, hs.getD 7 0⟩
  let fin := (ws.zip shaK).foldl shaRound init
  [w32 (hs.getD 0 0 + fin.a), w32 (hs.getD 1 0 + fin.b),
   w32 (hs.getD 2 0 + fin.c), w32 (hs.getD 3 0 + fin.d),
   w32 (hs.getD 4 0 + fin.e), w32 (hs.getD 5 0 + fin.f),
   w32 (hs.getD 6 0 + fin.g), w32 (hs.getD 7 0 + fin.h)]

/-- Big-endian bytes of one 32-bit word. -/
def wordBytes (w : Nat) : List Nat :=
  [(w >>> 24) % 256, (w >>> 16) % 256, (w >>> 8) % 256, w % 256]

/-- SHA-256 digest (32 bytes) of a byte string. -/
def sha256Bytes (msg : List Nat) : List Nat :=
  let blocks := chunk16 (toWords (padMessage msg))
  (blocks.foldl compressBlock shaH0).flatMap wordBytes

def hexChars : List Char := "0123456789abcdef".data

/-- Two lowercase hex characters of a byte. -/
def hexByte (b : Nat) : List Char :=
  [hexChars.getD (b / 16 % 16) '0', hexChars.getD (b % 16) '0']

/-- Lowercase hexadecimal SHA-256 digest of a string, as `digest('hex')`. -/
def sha256Hex (s : String) : String :=
  String.mk ((sha256Bytes (strBytes s)).flatMap hexByte)

/-! ## Data model: API types and relational state -/

/-- An output of a transaction: an owning address and a value. -/
structure Output where
  address : String
  value : Rat
deriving DecidableEq

/-- An input: a reference to a previously created output. -/
structure Input where
  txId : String
  index : Nat
deriving DecidableEq

/-- A transaction: an identifier plus ordered input and output lists. -/
structure Transaction where
  id : String
  inputs : List Input
  outputs : List Output
deriving DecidableEq

/-- A block as submitted to the service layer. -/
structure Block where
  id : String
  height : Nat
  transactions : List Transaction
deriving DecidableEq

/-- A row of the `blocks` table: `(id TEXT PRIMARY KEY, height INTEGER UNIQUE)`. -/
structure BlockRow where
  id : String
  height : Nat
deriving DecidableEq

/-- A row of the `transactions` table: `(id TEXT PRIMARY KEY, block_id TEXT REFERENCES blocks)`. -/
structure TxRow where
  id : String
  block_id : String
deriving DecidableEq

/-- A row of the `outputs` table, with `UNIQUE(tx_id, output_index)`. -/
structure OutputRecord where
  tx_id : String
  output_index : Nat
  address : String
  value : Rat
  spent : Bool
  spent_by_tx : Option String
  spent_by_index : Option Nat
deriving DecidableEq

/-- The committed relational state. -/
structure DB where
  blocks : List BlockRow
  transactions : List TxRow
  outputs : List OutputRecord
deriving DecidableEq

/-- The empty ledger. -/
def DB.empty : DB := ⟨[], [], []⟩

/-- Errors raised by the service: `ValidationError`, `ConflictError`, and
plain `Error`s from the store (constraint violations, failed conditional
updates), which surface as generic internal errors. -/
inductive Err where
  | validation (msg : String) (code : Option String)
  | conflict (msg : String) (code : Option String)
  | internal (msg : String)
deriving DecidableEq

/-- Whether an error is a generic internal (store-level) error. -/
def Err.isInternal : Err → Bool
  | .internal _ => true
  | _ => false

/-- Result of an operation inside an open store transaction: the session
state as written so far, plus the error that aborted it, if any. -/
abbrev Step := DB × Option Err

/-! ## Repository operations (translated from the SQL each method issues) -/

/-- `SELECT COALESCE(MAX(height), 0) FROM blocks`. -/
def getCurrentHeight (db : DB) : Nat :=
  (db.blocks.map (fun r => r.height)).foldr max 0

/-- `INSERT INTO blocks (id, height) VALUES ($1, $2)`; the primary key on
`id` and the unique constraint on `height` make a duplicate insert fail. -/
def createBlock (db : DB) (b : Block) : Step :=
  if db.blocks.any (fun r => r.id == b.id || r.height == b.height) then
    (db, some (.internal "blocks: duplicate key value violates unique constraint"))
  else
    ({ db with blocks := db.blocks ++ [⟨b.id, b.height⟩] }, none)

/-- `INSERT INTO transactions (id, block_id) VALUES ($1, $2)`; the primary
key on `id` makes a duplicate insert fail. -/
def createTransaction (db : DB) (txId blockId : String) : Step :=
  if db.transactions.any (fun r => r.id == txId) then
    (db, some (.internal "transactions: duplicate key value violates unique constraint"))
  else
    ({ db with transactions := db.transactions ++ [⟨txId, blockId⟩] }, none)

/-- `INSERT INTO outputs (tx_id, output_index, address, value, spent)
VALUES ($1, $2, $3, $4, FALSE)`; `UNIQUE(tx_id, output_index)` makes a
duplicate insert fail. -/
def createOutput (db : DB) (txId : String) (index : Nat) (o : Output) : Step :=
  if db.outputs.any (fun r => r.tx_id == txId && r.output_index == index) then
    (db, some (.internal "outputs: duplicate key value violates unique constraint"))
  else
    ({ db with outputs := db.outputs ++ [⟨txId, index, o.address, o.value, false, none, none⟩] },
     none)

/-- `SELECT ... FROM outputs WHERE tx_id = $1 AND output_index = $2`. -/
def getOutput (db : DB) (txId : String) (index : Nat) : Option OutputRecord :=
  db.outputs.find? (fun r => r.tx_id == txId && r.output_index == index)

/-- `UPDATE outputs SET spent = TRUE, spent_by_tx = $1, spent_by_index = $2
WHERE tx_id = $3 AND output_index = $4 AND spent = FALSE`, with zero
affected rows raised as an error. -/
def markOutputAsSpent (db : DB) (txId : String) (index : Nat)
    (spentByTx : String) (spentByIndex : Nat) : Step :=
  if db.outputs.any (fun r => r.tx_id == txId && r.output_index == index && !r.spent) then
    ({ db with outputs := db.outputs.map (fun r =>
        if r.tx_id == txId && r.output_index == index && !r.spent then
          { r with spent := true, spent_by_tx := some spentByTx,
                   spent_by_index := some spentByIndex }
        else r) }, none)
  else
    (db, some (.internal ("Output " ++ txId ++ ":" ++ toString index ++
                          " not found or already spent")))

/-- `UPDATE outputs SET spent = FALSE, spent_by_tx = NULL,
spent_by_index = NULL WHERE spent_by_tx = $1`. -/
def unspendOutputsByTransaction (db : DB) (txId : String) : DB :=
  { db with outputs := db.outputs.map (fun r =>
      if r.spent_by_tx == some txId then
        { r with spent := false, spent_by_tx := none, spent_by_index := none }
      else r) }

/-- `SELECT COALESCE(SUM(value), 0) FROM outputs
WHERE address = $1 AND spent = FALSE`. -/
def getBalanceForAddress (db : DB) (address : String) : Rat :=
  ((db.outputs.filter (fun r => r.address == address && !r.spent)).map
    (fun r => r.value)).sum

/-- Descending insertion by height, for `ORDER BY height DESC`. -/
def insertDesc (b : BlockRow) : List BlockRow → List BlockRow
  | [] => [b]
  | x :: xs => if x.height ≤ b.height then b :: x :: xs else x :: insertDesc b xs

/-- `SELECT id FROM blocks WHERE height > $1 ORDER BY height DESC`. -/
def getBlocksAboveHeight (db : DB) (height : Nat) : List BlockRow :=
  (db.blocks.filter (fun r => decide (height < r.height))).foldr insertDesc []

/-- `SELECT id FROM transactions WHERE block_id = $1`. -/
def getTransactionsByBlockId (db : DB) (blockId : String) : List TxRow :=
  db.transactions.filter (fun r => r.block_id == blockId)

/-- `DELETE FROM blocks WHERE height > $1`, with `ON DELETE CASCADE`
removing the owned transactions and those transactions' outputs. -/
def deleteBlocksAboveHeight (db : DB) (height : Nat) : DB :=
  let deadBlocks := (db.blocks.filter (fun r => decide (height < r.height))).map (fun r => r.id)
  let deadTxs := (db.transactions.filter (fun t => deadBlocks.contains t.block_id)).map
    (fun t => t.id)
  { blocks := db.blocks.filter (fun r => !decide (height < r.height)),
    transactions := db.transactions.filter (fun t => !deadBlocks.contains t.block_id),
    outputs := db.outputs.filter (fun o => !deadTxs.contains o.tx_id) }

/-! ## Ledger engine: validation -/

/-- `height.toString() + transactionIds.join('')`, hashed with SHA-256. -/
def calculateBlockHash (height : Nat) (transactionIds : List String) : String :=
  sha256Hex (toString height ++ String.join transactionIds)

/-- The conservation tolerance `0.000001`. -/
def valueTolerance : Rat := 1 / 1000000

/-- Scan one transaction's inputs in order, accumulating the referenced
outputs' values; a missing output raises `INVALID_INPUT`, a spent one
raises `DOUBLE_SPEND`. -/
def scanInputs (db : DB) : List Input → Rat → Except Err Rat
  | [], acc => .ok acc
  | inp :: rest, acc =>
    match getOutput db inp.txId inp.index with
    | none => .error (.validation
        ("Input references non-existent output: " ++ inp.txId ++ ":" ++ toString inp.index)
        (some "INVALID_INPUT"))
    | some o =>
      if o.spent then
        .error (.conflict ("Output already spent: " ++ inp.txId ++ ":" ++ toString inp.index)
          (some "DOUBLE_SPEND"))
      else scanInputs db rest (acc + o.value)

/-- Scan the block's transactions in order, accumulating total input and
output values as `validateTransactionBalances` does. -/
def scanTransactions (db : DB) : List Transaction → Rat → Rat → Except Err (Rat × Rat)
  | [], tin, tout => .ok (tin, tout)
  | tx :: rest, tin, tout =>
    match scanInputs db tx.inputs tin with
    | .error e => .error e
    | .ok tin' =>
      scanTransactions db rest tin' (tx.outputs.foldl (fun acc o => acc + o.value) tout)

/-- `BlockchainService.validateTransactionBalances`. -/
def validateTransactionBalances (db : DB) (b : Block) : Except Err Unit :=
  match scanTransactions db b.transactions 0 0 with
  | .error e => .error e
  | .ok (tin, tout) =>
    if 1 < b.height ∧ valueTolerance < |tin - tout| then
      .error (.validation
        (s!"Input/Output value mismatch. Inputs: {tin}, Outputs: {tout}")
        (some "VALUE_MISMATCH"))
    else .ok ()

/-- `BlockchainService.validateBlock`: height, identity, then balances. -/
def validateBlock (db : DB) (b : Block) : Except Err Unit :=
  let currentHeight := getCurrentHeight db
  if b.height ≠ currentHeight + 1 then
    .error (.validation
      (s!"Invalid height. Expected {currentHeight + 1}, got {b.height}")
      (some "INVALID_HEIGHT"))
  else
    let expectedHash := calculateBlockHash b.height (b.transactions.map (fun t => t.id))
    if b.id ≠ expectedHash then
      .error (.validation
        (s!"Invalid block ID. Expected {expectedHash}, got {b.id}")
        (some "INVALID_BLOCK_ID"))
    else
      validateTransactionBalances db b

/-! ## Ledger engine: atomic apply and rollback -/

/-- Spend each input in order, recording the spending transaction and
input index. -/
def spendInputs (txId : String) : DB → List Input → Nat → Step
  | db, [], _ => (db, none)
  | db, inp :: rest, i =>
    match markOutputAsSpent db inp.txId inp.index txId i with
    | (db', none) => spendInputs txId db' rest (i + 1)
    | r => r

/-- Create each new output in order at its index. -/
def createOutputs (txId : String) : DB → List Output → Nat → Step
  | db, [], _ => (db, none)
  | db, o :: rest, i =>
    match createOutput db txId i o with
    | (db', none) => createOutputs txId db' rest (i + 1)
    | r => r

/-- `BlockchainService.processTransaction`: create the record, spend the
inputs, create the outputs. -/
def processTransaction (db : DB) (tx : Transaction) (blockId : String) : Step :=
  match createTransaction db tx.id blockId with
  | (db1, none) =>
    match spendInputs tx.id db1 tx.inputs 0 with
    | (db2, none) => createOutputs tx.id db2 tx.outputs 0
    | r => r
  | r => r

/-- Apply the block's transactions in order, stopping at the first error. -/
def applyTransactions (blockId : String) : DB → List Transaction → Step
  | db, [] => (db, none)
  | db, tx :: rest =>
    match processTransaction db tx blockId with
    | (db', none) => applyTransactions blockId db' rest
    | r => r

/-- The writes of `processBlock`'s `BEGIN ... COMMIT` body, with the
session state reached when an error aborts it. -/
def applyBlockRaw (db : DB) (b : Block) : Step :=
  match createBlock db b with
  | (db1, none) => applyTransactions b.id db1 b.transactions
  | r => r

/-- `BlockchainService.processBlock`: validate, then apply atomically —
an error inside the unit rolls the session back and re-raises. -/
def processBlock (db : DB) (b : Block) : Except Err DB :=
  match validateBlock db b with
  | .error e => .error e
  | .ok _ =>
    match applyBlockRaw db b with
    | (db', none) => .ok db'
    | (_, some e) => .error e

/-- The observable state machine: the committed state after a submission,
plus the reported error if the submission failed. -/
def submitBlock (db : DB) (b : Block) : DB × Option Err :=
  match processBlock db b with
  | .ok db' => (db', none)
  | .error e => (db, some e)

/-- `config.blockchain.maxRollbackBlocks` (default 2000). -/
def maxRollbackBlocks : Nat := 2000

/-- The writes of `rollback`'s transactional body: unspend the outputs
spent by each doomed block's transactions, then delete the blocks. -/
def rollbackApply (db : DB) (targetHeight : Nat) : DB :=
  let blocksToDelete := getBlocksAboveHeight db targetHeight
  let db1 := blocksToDelete.foldl (fun acc blk =>
    (getTransactionsByBlockId acc blk.id).foldl
      (fun acc2 t => unspendOutputsByTransaction acc2 t.id) acc) db
  deleteBlocksAboveHeight db1 targetHeight

/-- `BlockchainService.rollback`: the three ordered precondition checks,
then the atomic rollback body. -/
def rollback (db : DB) (targetHeight : Int) : Except Err DB :=
  let currentHeight := getCurrentHeight db
  if targetHeight < 0 then
    .error (.validation "Invalid height parameter" (some "INVALID_HEIGHT"))
  else if (currentHeight : Int) < targetHeight then
    .error (.validation
      (s!"Cannot rollback to future height. Current: {currentHeight}, Target: {targetHeight}")
      (some "FUTURE_HEIGHT"))
  else if (maxRollbackBlocks : Int) < (currentHeight : Int) - targetHeight then
    .error (.validation
      (s!"Cannot rollback more than {maxRollbackBlocks} blocks. Current: {currentHeight}, Target: {targetHeight}")
      (some "EXCESSIVE_ROLLBACK"))
  else .ok (rollbackApply db targetHeight.toNat)

/-- The observable state machine for rollback. -/
def submitRollback (db : DB) (targetHeight : Int) : DB × Option Err :=
  match rollback db targetHeight with
  | .ok db' => (db', none)
  | .error e => (db, some e)

/-- `BlockchainService.getBalance`. -/
def getBalance (db : DB) (address : String) : Rat :=
  getBalanceForAddress db address

deriving instance DecidableEq for Except

/-! ## Structural validator over untrusted JSON-like values -/

/-- A JavaScript value as it reaches `BlockValidator` from the request
body. Numbers are modelled as exact rationals. -/
inductive JVal where
  | jnull
  | jbool (b : Bool)
  | jnum (q : Rat)
  | jstr (s : String)
  | jarr (elems : List JVal)
  | jobj (fields : List (String × JVal))

/-- Property access `data.key`; `none` models `undefined`. -/
def JVal.get : JVal → String → Option JVal
  | .jobj fields, key => (fields.find? (fun p => p.1 == key)).map (fun p => p.2)
  | _, _ => none

/-- The guard `!data || typeof data !== 'object'`: truthy values of type
`object` (objects and arrays) pass, everything else fails. -/
def JVal.isObjectLike : JVal → Bool
  | .jobj _ => true
  | .jarr _ => true
  | _ => false

/-- The projection `validateOutputSchema` returns. -/
structure SchemaOutput where
  address : String
  value : Rat
deriving DecidableEq

/-- The projection `validateInputSchema` returns; `index` is whatever
number was submitted. -/
structure SchemaInput where
  txId : String
  index : Rat
deriving DecidableEq

/-- The projection `validateTransactionSchema` returns. -/
structure SchemaTransaction where
  id : String
  inputs : List SchemaInput
  outputs : List SchemaOutput
deriving DecidableEq

/-- The projection `validateBlockSchema` returns; `height` is whatever
number was submitted. -/
structure SchemaBlock where
  id : String
  height : Rat
  transactions : List SchemaTransaction
deriving DecidableEq

/-- `BlockValidator.validateOutputSchema`. -/
def validateOutputSchema (data : JVal) : Except Err SchemaOutput :=
  if !data.isObjectLike then .error (.validation "Invalid output data" none)
  else
    match data.get "address" with
    | some (.jstr s) =>
      if s = "" then .error (.validation "Output address must be a non-empty string" none)
      else
        match data.get "value" with
        | some (.jnum q) =>
          if q < 0 then .error (.validation "Output value must be a non-negative number" none)
          else .ok ⟨s, q⟩
        | _ => .error (.validation "Output value must be a non-negative number" none)
    | _ => .error (.validation "Output address must be a non-empty string" none)

/-- `BlockValidator.validateInputSchema`. -/
def validateInputSchema (data : JVal) : Except Err SchemaInput :=
  if !data.isObjectLike then .error (.validation "Invalid input data" none)
  else
    match data.get "txId" with
    | some (.jstr s) =>
      if s = "" then .error (.validation "Input txId must be a non-empty string" none)
      else
        match data.get "index" with
        | some (.jnum q) =>
          if q < 0 then .error (.validation "Input index must be a non-negative number" none)
          else .ok ⟨s, q⟩
        | _ => .error (.validation "Input index must be a non-negative number" none)
    | _ => .error (.validation "Input txId must be a non-empty string" none)

/-- `BlockValidator.validateTransactionSchema`. -/
def validateTransactionSchema (data : JVal) : Except Err SchemaTransaction :=
  if !data.isObjectLike then .error (.validation "Invalid transaction data" none)
  else
    match data.get "id" with
    | some (.jstr s) =>
      if s = "" then .error (.validation "Transaction ID must be a non-empty string" none)
      else
        match data.get "inputs" with
        | some (.jarr ins) =>
          match data.get "outputs" with
          | some (.jarr outs) =>
            match ins.mapM validateInputSchema with
            | .error e => .error e
            | .ok ins' =>
              match outs.mapM validateOutputSchema with
              | .error e => .error e
              | .ok outs' => .ok ⟨s, ins', outs'⟩
          | _ => .error (.validation "Transaction outputs must be an array" none)
        | _ => .error (.validation "Transaction inputs must be an array" none)
    | _ => .error (.validation "Transaction ID must be a non-empty string" none)

/-- `BlockValidator.validateBlockSchema`. -/
def validateBlockSchema (data : JVal) : Except Err SchemaBlock :=
  if !data.isObjectLike then .error (.validation "Invalid block data" none)
  else
    match data.get "id" with
    | some (.jstr s) =>
      if s = "" then .error (.validation "Block ID must be a non-empty string" none)
      else
        match data.get "height" with
        | some (.jnum h) =>
          if h < 1 then .error (.validation "Block height must be a positive number" none)
          else
            match data.get "transactions" with
            | some (.jarr txs) =>
              match txs.mapM validateTransactionSchema with
              | .error e => .error e
              | .ok txs' => .ok ⟨s, h, txs'⟩
            | _ => .error (.validation "Block transactions must be an array" none)
        | _ => .error (.validation "Block height must be a positive number" none)
    | _ => .error (.validation "Block ID must be a non-empty string" none)

/-! ## Derived notions and invariants -/

/-- All inputs of a block, flattened in block order. -/
def flatInputs (b : Block) : List Input :=
  b.transactions.flatMap Transaction.inputs

/-- The key of the output an input references. -/
def inputKey (inp : Input) : String × Nat := (inp.txId, inp.index)

/-- The `(txId, index)` keys referenced by a block's inputs, in order. -/
def inputKeys (b : Block) : List (String × Nat) :=
  (flatInputs b).map inputKey

/-- The row update `unspendOutputsByTransaction` applies to each row. -/
def unspendRow (τ : String) (r : OutputRecord) : OutputRecord :=
  if r.spent_by_tx == some τ then
    { r with spent := false, spent_by_tx := none, spent_by_index := none }
  else r

/-- Every output row with the given key is spent (so a conditional
mark-spent of that key would match zero rows). -/
@[reducible] def allSpent (k : String × Nat) (outs : List OutputRecord) : Prop :=
  ∀ r ∈ outs, r.tx_id = k.1 → r.output_index = k.2 → r.spent = true

/-- Unspent rows carry no spender reference. -/
@[reducible] def cleanUnspent (outs : List OutputRecord) : Prop :=
  ∀ r ∈ outs, r.spent = false → r.spent_by_tx = none ∧ r.spent_by_index = none

/-- Referential integrity of the committed state: transactions point at
stored blocks, outputs and spender references point at stored
transactions, and unspent rows carry no spender reference. -/
@[reducible] def WF (db : DB) : Prop :=
  cleanUnspent db.outputs ∧
  (∀ t ∈ db.transactions, ∃ blk ∈ db.blocks, blk.id = t.block_id) ∧
  (∀ r ∈ db.outputs, ∀ τ, r.spent_by_tx = some τ → τ ∈ db.transactions.map TxRow.id) ∧
  (∀ r ∈ db.outputs, r.tx_id ∈ db.transactions.map TxRow.id)

/-- The `UNIQUE(tx_id, output_index)` constraint, as a state predicate. -/
@[reducible] def UniqueKeys (db : DB) : Prop :=
  db.outputs.Pairwise (fun r s => ¬(r.tx_id = s.tx_id ∧ r.output_index = s.output_index))

/-- Heights present form a contiguous run `[1..currentHeight]`. -/
@[reducible] def HeightsComplete (db : DB) : Prop :=
  ∀ h ∈ List.range (getCurrentHeight db + 1), h ≠ 0 → ∃ blk ∈ db.blocks, blk.height = h

/-- Clear the spender reference of a row whose spender is among the given
transaction ids. -/
def clearSpenders (txIds : List String) (r : OutputRecord) : OutputRecord :=
  match r.spent_by_tx with
  | some τ => if τ ∈ txIds then
      { r with spent := false, spent_by_tx := none, spent_by_index := none }
    else r
  | none => r

/-- The combined effect rollback has on the outputs table for a set of
doomed transaction ids: restore what they spent, drop what they created. -/
def undoOutputs (txIds : List String) (outs : List OutputRecord) : List OutputRecord :=
  (outs.map (clearSpenders txIds)).filter (fun o => !txIds.contains o.tx_id)

/-! ## Concrete scenario states (used by witnesses) -/

/-- The genesis block of the spec's example scenario:
`id = SHA256("1" + "tx1")`, one transaction minting 100 to `addr1`. -/
def genesisB : Block :=
  ⟨"d1582b9e2cac15e170c39ef2e85855ffd7e6a820550a8ca16a2f016d366503dc", 1,
   [⟨"tx1", [], [⟨"addr1", 100⟩]⟩]⟩

/-- Block 2 of the example scenario: spends `tx1:0` into
`(addr2, 40)` and `(addr3, 60)`; `id = SHA256("2" + "tx2")`. -/
def blockB2 : Block :=
  ⟨"c4701d0bfd7179e1db6e33e947e6c718bbc4a1ae927300cd1e3bda91a930cba5", 2,
   [⟨"tx2", [⟨"tx1", 0⟩], [⟨"addr2", 40⟩, ⟨"addr3", 60⟩]⟩]⟩

/-- The committed state after admitting the genesis block. -/
def dbG : DB :=
  ⟨[⟨"d1582b9e2cac15e170c39ef2e85855ffd7e6a820550a8ca16a2f016d366503dc", 1⟩],
   [⟨"tx1", "d1582b9e2cac15e170c39ef2e85855ffd7e6a820550a8ca16a2f016d366503dc"⟩],
   [⟨"tx1", 0, "addr1", 100, false, none, none⟩]⟩

/-- The committed state after admitting the genesis block and block 2. -/
def dbG2 : DB :=
  ⟨[⟨"d1582b9e2cac15e170c39ef2e85855ffd7e6a820550a8ca16a2f016d366503dc", 1⟩,
    ⟨"c4701d0bfd7179e1db6e33e947e6c718bbc4a1ae927300cd1e3bda91a930cba5", 2⟩],
   [⟨"tx1", "d1582b9e2cac15e170c39ef2e85855ffd7e6a820550a8ca16a2f016d366503dc"⟩,
    ⟨"tx2", "c4701d0bfd7179e1db6e33e947e6c718bbc4a1ae927300cd1e3bda91a930cba5"⟩],
   [⟨"tx1", 0, "addr1", 100, true, some "tx2", some 0⟩,
    ⟨"tx2", 0, "addr2", 40, false, none, none⟩,
    ⟨"tx2", 1, "addr3", 60, false, none, none⟩]⟩

/-- A block with a wrong height for the empty ledger. -/
def bBad : Block := ⟨"x", 5, []⟩

/-- A block on top of the genesis state whose single transaction spends
`tx1:0` twice; `id = SHA256("2" + "txdup")`. -/
def blockDup : Block :=
  ⟨"8fed1cd33f153147b30b118da20368aee0e26b066e03cdab915ec1925fd0a868", 2,
   [⟨"txdup", [⟨"tx1", 0⟩, ⟨"tx1", 0⟩], [⟨"addr2", 200⟩]⟩]⟩

/-- The value of the output a validated input references (0 if absent;
only used when the reference exists). -/
def refValue (db : DB) (inp : Input) : Rat :=
  ((getOutput db inp.txId inp.index).map OutputRecord.value).getD 0

/-- Sum of the referenced outputs' values over all inputs of a block. -/
def inputsSum (db : DB) (b : Block) : Rat :=
  ((flatInputs b).map (refValue db)).sum

/-- Sum of the values of all outputs created by a block. -/
def outputsSum (b : Block) : Rat :=
  ((b.transactions.flatMap Transaction.outputs).map Output.value).sum

/-- A height-2 block spending `tx1:0` (value 100) into a single output of
value 50, with a correctly computed id `SHA256("2" + "txbad")`. -/
def blockBadVal : Block :=
  ⟨"edf02309334904bbd40a6ecf4601d9ed7fcd5d4948709af172430ee6498076fb", 2,
   [⟨"txbad", [⟨"tx1", 0⟩], [⟨"addr2", 50⟩]⟩]⟩

/-- Whether an input fails semantic validation against the committed
state: its referenced output is absent or already spent. -/
def isBadInput (db : DB) (inp : Input) : Bool :=
  match getOutput db inp.txId inp.index with
  | none => true
  | some o => o.spent

/-- The error `validateTransactionBalances` raises for a bad input. -/
def badInputError (db : DB) (inp : Input) : Err :=
  match getOutput db inp.txId inp.index with
  | none => .validation
      ("Input references non-existent output: " ++ inp.txId ++ ":" ++ toString inp.index)
      (some "INVALID_INPUT")
  | some _ => .conflict
      ("Output already spent: " ++ inp.txId ++ ":" ++ toString inp.index)
      (some "DOUBLE_SPEND")

/-- The first input of the block (in block order) whose reference is
absent or spent, if any. -/
def firstBadInput (db : DB) (b : Block) : Option Input :=
  (flatInputs b).find? (isBadInput db)

/-- A height-2 block on the genesis state referencing a non-existent
output `nope:0`; `id = SHA256("2" + "txmiss")`. -/
def blockMissRef : Block :=
  ⟨"e9ce0f24ed313bd9a30a5e6945cb890fc3e843f4f9097815b199a931ec554092", 2,
   [⟨"txmiss", [⟨"nope", 0⟩], []⟩]⟩

/-- A height-3 block on the two-block state spending the already-spent
`tx1:0`; `id = SHA256("3" + "txc")`. -/
def blockConflict : Block :=
  ⟨"9fdaf7b35bf8da3d1cac238bd436fbef5475d7e06f6999312c6bcdb0303e775a", 3,
   [⟨"txc", [⟨"tx1", 0⟩], []⟩]⟩

/-- Total referenced-input value of `blockBadVal` in state `dbG`. -/
def mismatchIns : Rat := 100

/-- Total created-output value of `blockBadVal`. -/
def mismatchOuts : Rat := 50

/-- A 2001-block ledger (no transactions), deep enough to exceed the
rollback depth bound. -/
def dbTall : DB := ⟨(List.range 2001).map (fun i => ⟨toString (i + 1), i + 1⟩), [], []⟩

/-- Concrete rollback targets used by witnesses. -/
def tNeg : Int := -1

def tFar : Int := 5

def tZero : Int := 0

def tOne : Int := 1

/-- The sum the balance query computes, as a function of the outputs
table. -/
def unspentSumFor (outs : List OutputRecord) (a : String) : Rat :=
  ((outs.filter (fun r => r.address == a && !r.spent)).map OutputRecord.value).sum

/-- The row update `markOutputAsSpent` applies to each matching row. -/
def markRow (txId : String) (index : Nat) (spentByTx : String) (spentByIndex : Nat)
    (r : OutputRecord) : OutputRecord :=
  if r.tx_id == txId && r.output_index == index && !r.spent then
    { r with spent := true, spent_by_tx := some spentByTx,
             spent_by_index := some spentByIndex }
  else r

/-- The genesis state with its single output marked spent by `tx2`. -/
def dbGmarked : DB :=
  ⟨[⟨"d1582b9e2cac15e170c39ef2e85855ffd7e6a820550a8ca16a2f016d366503dc", 1⟩],
   [⟨"tx1", "d1582b9e2cac15e170c39ef2e85855ffd7e6a820550a8ca16a2f016d366503dc"⟩],
   [⟨"tx1", 0, "addr1", 100, true, some "tx2", some 0⟩]⟩

/-- A raw block value whose height is the non-integer number `3/2`. -/
def vHalfBlock : JVal :=
  .jobj [("id", .jstr "b1"), ("height", .jnum (3 / 2)), ("transactions", .jarr [])]

/-- A raw input value whose index is the non-integer number `1/2`. -/
def vHalfInput : JVal :=
  .jobj [("txId", .jstr "t"), ("index", .jnum (1 / 2))]

/-- The session state `processBlock` reaches while applying `blockDup`
on the genesis state, just before the second mark-spent fails: the block
row, both transaction rows and the first spend have been written. -/
def dbDupPartial : DB :=
  ⟨[⟨"d1582b9e2cac15e170c39ef2e85855ffd7e6a820550a8ca16a2f016d366503dc", 1⟩,
    ⟨"8fed1cd33f153147b30b118da20368aee0e26b066e03cdab915ec1925fd0a868", 2⟩],
   [⟨"tx1", "d1582b9e2cac15e170c39ef2e85855ffd7e6a820550a8ca16a2f016d366503dc"⟩,
    ⟨"txdup", "8fed1cd33f153147b30b118da20368aee0e26b066e03cdab915ec1925fd0a868"⟩],
   [⟨"tx1", 0, "addr1", 100, true, some "txdup", some 0⟩]⟩

/-! ## Helper lemmas: current height -/

theorem le_foldr_max {l : List Nat} {x : Nat} (h : x ∈ l) : x ≤ l.foldr max 0 := by
  induction l with
  | nil => cases h
  | cons a t ih =>
    rcases List.mem_cons.mp h with rfl | hx
    · exact Nat.le_max_left _ _
    · exact le_trans (ih hx) (Nat.le_max_right _ _)

theorem foldr_max_append (l : List Nat) (x : Nat) :
    (l ++ [x]).foldr max 0 = max (l.foldr max 0) x := by
  induction l with
  | nil => simp [Nat.max_comm]
  | cons a t ih => simp [List.foldr, ih, Nat.max_assoc]

theorem height_le_current {db : DB} {r : BlockRow} (h : r ∈ db.blocks) :
    r.height ≤ getCurrentHeight db := by
  exact le_foldr_max (List.mem_map_of_mem BlockRow.height h)

theorem getCurrentHeight_insert (db : DB) (row : BlockRow) :
    getCurrentHeight { db with blocks := db.blocks ++ [row] } =
      max (getCurrentHeight db) row.height := by
  unfold getCurrentHeight
  rw [List.map_append]
  simpa using foldr_max_append (db.blocks.map (fun r => r.height)) row.height

/-! ## Helper lemmas: success shapes of the store operations -/

theorem createBlock_ok {db db1 : DB} {b : Block}
    (h : createBlock db b = (db1, none)) :
    db1 = { db with blocks := db.blocks ++ [⟨b.id, b.height⟩] } ∧
    ∀ r ∈ db.blocks, r.id ≠ b.id ∧ r.height ≠ b.height := by
  unfold createBlock at h
  split at h
  · exact absurd (congrArg Prod.snd h) (by simp)
  · next hc =>
    refine ⟨(congrArg Prod.fst h).symm, ?_⟩
    intro r hr
    constructor
    · intro he; exact hc (List.any_eq_true.mpr ⟨r, hr, by simp [he]⟩)
    · intro he; exact hc (List.any_eq_true.mpr ⟨r, hr, by simp [he]⟩)

theorem createTransaction_ok {db db1 : DB} {txId blockId : String}
    (h : createTransaction db txId blockId = (db1, none)) :
    db1 = { db with transactions := db.transactions ++ [⟨txId, blockId⟩] } ∧
    txId ∉ db.transactions.map TxRow.id := by
  unfold createTransaction at h
  split at h
  · exact absurd (congrArg Prod.snd h) (by simp)
  · next hc =>
    refine ⟨(congrArg Prod.fst h).symm, ?_⟩
    intro hmem
    rcases List.mem_map.mp hmem with ⟨t, ht, rfl⟩
    exact hc (List.any_eq_true.mpr ⟨t, ht, by simp⟩)

theorem createOutput_ok {db db1 : DB} {txId : String} {index : Nat} {o : Output}
    (h : createOutput db txId index o = (db1, none)) :
    db1 = { db with outputs :=
      db.outputs ++ [⟨txId, index, o.address, o.value, false, none, none⟩] } := by
  unfold createOutput at h
  split at h
  · exact absurd (congrArg Prod.snd h) (by simp)
  · exact (congrArg Prod.fst h).symm

theorem markOutputAsSpent_ok {db db1 : DB} {txId : String} {index : Nat}
    {spentByTx : String} {spentByIndex : Nat}
    (h : markOutputAsSpent db txId index spentByTx spentByIndex = (db1, none)) :
    db1 = { db with outputs := db.outputs.map (fun r =>
        if r.tx_id == txId && r.output_index == index && !r.spent then
          { r with spent := true, spent_by_tx := some spentByTx,
                   spent_by_index := some spentByIndex }
        else r) } ∧
    ∃ r ∈ db.outputs, r.tx_id = txId ∧ r.output_index = index ∧ r.spent = false := by
  unfold markOutputAsSpent at h
  split at h
  · next hc =>
    refine ⟨(congrArg Prod.fst h).symm, ?_⟩
    rcases List.any_eq_true.mp hc with ⟨r, hr, hp⟩
    simp only [Bool.and_eq_true, beq_iff_eq, Bool.not_eq_true'] at hp
    exact ⟨r, hr, hp.1.1, hp.1.2, hp.2⟩
  · exact absurd (congrArg Prod.snd h) (by simp)

/-! ## Helper lemmas: validation success shape -/

theorem validateBlock_ok_iff {db : DB} {b : Block} :
    validateBlock db b = .ok () ↔
      b.height = getCurrentHeight db + 1 ∧
      b.id = calculateBlockHash b.height (b.transactions.map Transaction.id) ∧
      validateTransactionBalances db b = .ok () := by
  simp only [validateBlock]
  split_ifs with h1 h2
  · simp only [reduceCtorEq, false_iff]; intro hc; exact h1 hc.1
  · simp only [reduceCtorEq, false_iff]; intro hc; exact h2 hc.2.1
  · rw [not_not] at h1 h2
    simp [h1, h2]

/-! ## Helper lemmas: tables untouched by the apply-phase operations -/

theorem mark_fst_tables (db : DB) (t : String) (i : Nat) (s : String) (j : Nat) :
    (markOutputAsSpent db t i s j).1.blocks = db.blocks ∧
    (markOutputAsSpent db t i s j).1.transactions = db.transactions := by
  unfold markOutputAsSpent; split <;> simp

theorem createOutput_fst_tables (db : DB) (t : String) (i : Nat) (o : Output) :
    (createOutput db t i o).1.blocks = db.blocks ∧
    (createOutput db t i o).1.transactions = db.transactions := by
  unfold createOutput; split <;> simp

theorem createTransaction_fst_blocks (db : DB) (t bId : String) :
    (createTransaction db t bId).1.blocks = db.blocks := by
  unfold createTransaction; split <;> simp

theorem spendInputs_fst_tables (τ : String) :
    ∀ (l : List Input) (db : DB) (i : Nat),
      (spendInputs τ db l i).1.blocks = db.blocks ∧
      (spendInputs τ db l i).1.transactions = db.transactions := by
  intro l
  induction l with
  | nil => intro db i; exact ⟨rfl, rfl⟩
  | cons inp rest ih =>
    intro db i
    unfold spendInputs
    rcases hm : markOutputAsSpent db inp.txId inp.index τ i with ⟨db1, e⟩
    have ht := mark_fst_tables db inp.txId inp.index τ i
    rw [hm] at ht
    cases e with
    | none =>
      simp only []
      have := ih db1 (i + 1)
      exact ⟨by rw [this.1, ht.1], by rw [this.2, ht.2]⟩
    | some err => simpa using ht

theorem createOutputs_fst_tables (τ : String) :
    ∀ (l : List Output) (db : DB) (i : Nat),
      (createOutputs τ db l i).1.blocks = db.blocks ∧
      (createOutputs τ db l i).1.transactions = db.transactions := by
  intro l
  induction l with
  | nil => intro db i; exact ⟨rfl, rfl⟩
  | cons o rest ih =>
    intro db i
    unfold createOutputs
    rcases hm : createOutput db τ i o with ⟨db1, e⟩
    have ht := createOutput_fst_tables db τ i o
    rw [hm] at ht
    cases e with
    | none =>
      simp only []
      have := ih db1 (i + 1)
      exact ⟨by rw [this.1, ht.1], by rw [this.2, ht.2]⟩
    | some err => simpa using ht

theorem processTransaction_fst_blocks (db : DB) (tx : Transaction) (bId : String) :
    (processTransaction db tx bId).1.blocks = db.blocks := by
  unfold processTransaction
  rcases hc : createTransaction db tx.id bId with ⟨db1, e⟩
  have hb := createTransaction_fst_blocks db tx.id bId
  rw [hc] at hb
  cases e with
  | none =>
    simp only []
    rcases hs : spendInputs tx.id db1 tx.inputs 0 with ⟨db2, e2⟩
    have hb2 := spendInputs_fst_tables tx.id tx.inputs db1 0
    rw [hs] at hb2
    cases e2 with
    | none =>
      simp only []
      have hb3 := createOutputs_fst_tables tx.id tx.outputs db2 0
      rw [hb3.1, hb2.1, hb]
    | some err =>
      simp only [] at hb2 ⊢
      exact hb2.1.trans hb
  | some err => simpa using hb

theorem applyTransactions_fst_blocks (bId : String) :
    ∀ (txs : List Transaction) (db : DB),
      (applyTransactions bId db txs).1.blocks = db.blocks := by
  intro txs
  induction txs with
  | nil => intro db; rfl
  | cons tx rest ih =>
    intro db
    unfold applyTransactions
    rcases hp : processTransaction db tx bId with ⟨db1, e⟩
    have hb := processTransaction_fst_blocks db tx bId
    rw [hp] at hb
    cases e with
    | none => simp only []; rw [ih db1, hb]
    | some err => simpa using hb

/-! ## Helper lemmas: processBlock success shape -/

theorem processBlock_ok_elim {db db' : DB} {b : Block}
    (h : processBlock db b = .ok db') :
    validateBlock db b = .ok () ∧ applyBlockRaw db b = (db', none) := by
  unfold processBlock at h
  rcases hv : validateBlock db b with e | u
  · rw [hv] at h; exact absurd h (by simp)
  · rw [hv] at h
    rcases ha : applyBlockRaw db b with ⟨db1, e⟩
    rw [ha] at h
    cases e with
    | none =>
      simp only [] at h
      cases u
      exact ⟨rfl, by rw [Except.ok.inj h]⟩
    | some err => exact absurd h (by simp)

theorem processBlock_ok_blocks {db db' : DB} {b : Block}
    (h : processBlock db b = .ok db') :
    db'.blocks = db.blocks ++ [⟨b.id, b.height⟩] := by
  rcases processBlock_ok_elim h with ⟨_, ha⟩
  unfold applyBlockRaw at ha
  rcases hc : createBlock db b with ⟨db1, e⟩
  rw [hc] at ha
  cases e with
  | none =>
    simp only [] at ha
    have hb := applyTransactions_fst_blocks b.id b.transactions db1
    rw [ha] at hb
    simp only [] at hb
    rw [hb, (createBlock_ok hc).1]
  | some err => exact absurd (congrArg Prod.snd ha) (by simp)

theorem processBlock_ok_height {db db' : DB} {b : Block}
    (h : processBlock db b = .ok db') :
    b.height = getCurrentHeight db + 1 ∧
    getCurrentHeight db' = getCurrentHeight db + 1 := by
  have hv := (validateBlock_ok_iff.mp (processBlock_ok_elim h).1).1
  refine ⟨hv, ?_⟩
  have hb := processBlock_ok_blocks h
  show (db'.blocks.map (fun r => r.height)).foldr max 0 = getCurrentHeight db + 1
  rw [hb, List.map_append]
  have hm : List.map (fun r => r.height) [({ id := b.id, height := b.height } : BlockRow)] =
      [b.height] := rfl
  rw [hm, foldr_max_append]
  show max (getCurrentHeight db) b.height = getCurrentHeight db + 1
  rw [hv]
  exact Nat.max_eq_right (Nat.le_succ _)

theorem processBlock_chain_height :
    ∀ (bs : List Block) (db db' : DB),
      List.foldlM processBlock db bs = .ok db' →
      getCurrentHeight db' = getCurrentHeight db + bs.length := by
  intro bs
  induction bs with
  | nil => intro db db' h; cases h; simp
  | cons b rest ih =>
    intro db db' h
    simp only [List.foldlM_cons] at h
    rcases hp : processBlock db b with e | db1
    · rw [hp] at h
      exact Except.noConfusion (h : (Except.error e : Except Err DB) = Except.ok db')
    · rw [hp] at h
      have h' : List.foldlM processBlock db1 rest = .ok db' := h
      have hh := (processBlock_ok_height hp).2
      rw [ih db1 db' h', hh, List.length_cons]
      omega

theorem height_mismatch_error {db : DB} {b : Block}
    (h : b.height ≠ getCurrentHeight db + 1) :
    submitBlock db b = (db, some (Err.validation
      (s!"Invalid height. Expected {getCurrentHeight db + 1}, got {b.height}")
      (some "INVALID_HEIGHT"))) := by
  unfold submitBlock processBlock validateBlock
  simp only [if_pos h]

/-- C1: admission succeeds only when the submitted height equals
`currentHeight + 1`; otherwise it fails with a sequencing error whose
message reports the expected and actual heights and the ledger is
unchanged.  On success the new current height is the old one plus one;
the empty ledger has height 0, and admitting a valid chain of `n` blocks
from the empty ledger leaves `currentHeight = n`. -/
theorem claim_height_sequencing :
    (∀ db b, b.height ≠ getCurrentHeight db + 1 →
      submitBlock db b = (db, some (Err.validation
        (s!"Invalid height. Expected {getCurrentHeight db + 1}, got {b.height}")
        (some "INVALID_HEIGHT")))) ∧
    (∀ db b db', processBlock db b = .ok db' →
      b.height = getCurrentHeight db + 1 ∧
      getCurrentHeight db' = getCurrentHeight db + 1) ∧
    getCurrentHeight DB.empty = 0 ∧
    (∀ bs db', List.foldlM processBlock DB.empty bs = .ok db' →
      getCurrentHeight db' = bs.length) := by
  refine ⟨fun db b h => height_mismatch_error h,
          fun db b db' h => processBlock_ok_height h, rfl, fun bs db' h => ?_⟩
  have := processBlock_chain_height bs DB.empty db' h
  rw [show getCurrentHeight DB.empty = 0 from rfl] at this
  simpa using this

/-- Witness for C1 at concrete inputs: a height-5 block on the empty
ledger is rejected with the sequencing error, and admitting the two-block
example chain yields height 2. -/
theorem claim_height_sequencing_witness :
    submitBlock DB.empty bBad = (DB.empty, some (Err.validation
      (s!"Invalid height. Expected {getCurrentHeight DB.empty + 1}, got {bBad.height}")
      (some "INVALID_HEIGHT"))) ∧
    getCurrentHeight dbG2 = [genesisB, blockB2].length :=
  ⟨claim_height_sequencing.1 DB.empty bBad (by decide),
   claim_height_sequencing.2.2.2 [genesisB, blockB2] dbG2 (by decide)⟩

/-! ## Helper lemmas: digest shape -/

theorem compressBlock_length (hs blk : List Nat) : (compressBlock hs blk).length = 8 := rfl

theorem foldl_compress_length :
    ∀ (l : List (List Nat)) (hs : List Nat), hs.length = 8 →
      (l.foldl compressBlock hs).length = 8 := by
  intro l
  induction l with
  | nil => intro hs h; exact h
  | cons blk rest ih => intro hs _; exact ih (compressBlock hs blk) (compressBlock_length hs blk)

theorem length_flatMap_const {α β : Type} (f : α → List β) (k : Nat)
    (hf : ∀ a, (f a).length = k) : ∀ l : List α, (l.flatMap f).length = k * l.length := by
  intro l
  induction l with
  | nil => simp
  | cons a rest ih =>
    simp only [List.flatMap_cons, List.length_append, ih, hf a, List.length_cons]
    ring

theorem sha256Bytes_length (msg : List Nat) : (sha256Bytes msg).length = 32 := by
  unfold sha256Bytes
  rw [length_flatMap_const wordBytes 4 (fun _ => rfl)]
  rw [foldl_compress_length _ shaH0 rfl]

theorem sha256Hex_length (s : String) : (sha256Hex s).length = 64 := by
  show ((sha256Bytes (strBytes s)).flatMap hexByte).length = 64
  rw [length_flatMap_const hexByte 2 (fun _ => rfl), sha256Bytes_length]

theorem hexChars_getD_mem (i : Nat) (h : i < 16) : hexChars.getD i '0' ∈ hexChars := by
  interval_cases i <;> decide

theorem sha256Hex_chars (s : String) : ∀ c ∈ (sha256Hex s).data, c ∈ hexChars := by
  intro c hc
  have hc' : c ∈ (sha256Bytes (strBytes s)).flatMap hexByte := hc
  rcases List.mem_flatMap.mp hc' with ⟨b, _, hcb⟩
  unfold hexByte at hcb
  simp only [List.mem_cons, List.not_mem_nil, or_false] at hcb
  rcases hcb with rfl | rfl
  · exact hexChars_getD_mem _ (Nat.mod_lt _ (by norm_num))
  · exact hexChars_getD_mem _ (Nat.mod_lt _ (by norm_num))

/-! ## Helper lemmas: error shapes of validation and apply -/

theorem scanInputs_error_shape {db : DB} :
    ∀ {l : List Input} {acc : Rat} {e : Err}, scanInputs db l acc = .error e →
      (∃ m, e = .validation m (some "INVALID_INPUT")) ∨
      (∃ m, e = .conflict m (some "DOUBLE_SPEND")) := by
  intro l
  induction l with
  | nil => intro acc e h; exact absurd h (by simp [scanInputs])
  | cons inp rest ih =>
    intro acc e h
    unfold scanInputs at h
    rcases hg : getOutput db inp.txId inp.index with _ | o
    · rw [hg] at h
      simp only [] at h
      exact Or.inl ⟨_, (Except.error.inj h).symm⟩
    · rw [hg] at h
      simp only [] at h
      by_cases hs : o.spent = true
      · rw [if_pos hs] at h
        exact Or.inr ⟨_, (Except.error.inj h).symm⟩
      · rw [if_neg hs] at h
        exact ih h

theorem scanTransactions_error_shape {db : DB} :
    ∀ {txs : List Transaction} {tin tout : Rat} {e : Err},
      scanTransactions db txs tin tout = .error e →
      (∃ m, e = .validation m (some "INVALID_INPUT")) ∨
      (∃ m, e = .conflict m (some "DOUBLE_SPEND")) := by
  intro txs
  induction txs with
  | nil => intro tin tout e h; exact absurd h (by simp [scanTransactions])
  | cons tx rest ih =>
    intro tin tout e h
    unfold scanTransactions at h
    rcases hs : scanInputs db tx.inputs tin with e' | tin'
    · rw [hs] at h
      exact (Except.error.inj h) ▸ scanInputs_error_shape hs
    · rw [hs] at h
      exact ih h

theorem vtb_error_shape {db : DB} {b : Block} {e : Err}
    (h : validateTransactionBalances db b = .error e) :
    (∃ m, e = .validation m (some "INVALID_INPUT")) ∨
    (∃ m, e = .conflict m (some "DOUBLE_SPEND")) ∨
    (∃ m, e = .validation m (some "VALUE_MISMATCH")) := by
  unfold validateTransactionBalances at h
  rcases hs : scanTransactions db b.transactions 0 0 with e' | ⟨tin, tout⟩
  · rw [hs] at h
    simp only [] at h
    have he : e' = e := Except.error.inj h
    rcases scanTransactions_error_shape (he ▸ hs) with h1 | h2
    · exact Or.inl h1
    · exact Or.inr (Or.inl h2)
  · rw [hs] at h
    simp only [] at h
    split at h
    · exact Or.inr (Or.inr ⟨_, (Except.error.inj h).symm⟩)
    · exact absurd h (by simp)

theorem createBlock_error_internal {db db1 : DB} {b : Block} {e : Err}
    (h : createBlock db b = (db1, some e)) : e.isInternal = true := by
  unfold createBlock at h
  split at h
  · cases (Prod.mk.inj h).2; rfl
  · exact absurd (Prod.mk.inj h).2 (by simp)

theorem createTransaction_error_internal {db db1 : DB} {t bId : String} {e : Err}
    (h : createTransaction db t bId = (db1, some e)) : e.isInternal = true := by
  unfold createTransaction at h
  split at h
  · cases (Prod.mk.inj h).2; rfl
  · exact absurd (Prod.mk.inj h).2 (by simp)

theorem createOutput_error_internal {db db1 : DB} {t : String} {i : Nat} {o : Output} {e : Err}
    (h : createOutput db t i o = (db1, some e)) : e.isInternal = true := by
  unfold createOutput at h
  split at h
  · cases (Prod.mk.inj h).2; rfl
  · exact absurd (Prod.mk.inj h).2 (by simp)

theorem mark_error_internal {db db1 : DB} {t : String} {i : Nat} {s : String} {j : Nat} {e : Err}
    (h : markOutputAsSpent db t i s j = (db1, some e)) : e.isInternal = true := by
  unfold markOutputAsSpent at h
  split at h
  · exact absurd (Prod.mk.inj h).2 (by simp)
  · cases (Prod.mk.inj h).2; rfl

theorem spendInputs_error_internal {τ : String} :
    ∀ {l : List Input} {db db1 : DB} {i : Nat} {e : Err},
      spendInputs τ db l i = (db1, some e) → e.isInternal = true := by
  intro l
  induction l with
  | nil => intro db db1 i e h; exact absurd (Prod.mk.inj h).2 (by simp)
  | cons inp rest ih =>
    intro db db1 i e h
    unfold spendInputs at h
    rcases hm : markOutputAsSpent db inp.txId inp.index τ i with ⟨db2, e2⟩
    rw [hm] at h
    cases e2 with
    | none => exact ih h
    | some err =>
      cases (Prod.mk.inj h).2
      exact mark_error_internal hm

theorem createOutputs_error_internal {τ : String} :
    ∀ {l : List Output} {db db1 : DB} {i : Nat} {e : Err},
      createOutputs τ db l i = (db1, some e) → e.isInternal = true := by
  intro l
  induction l with
  | nil => intro db db1 i e h; exact absurd (Prod.mk.inj h).2 (by simp)
  | cons o rest ih =>
    intro db db1 i e h
    unfold createOutputs at h
    rcases hm : createOutput db τ i o with ⟨db2, e2⟩
    rw [hm] at h
    cases e2 with
    | none => exact ih h
    | some err =>
      cases (Prod.mk.inj h).2
      exact createOutput_error_internal hm

theorem processTransaction_error_internal {db db1 : DB} {tx : Transaction} {bId : String} {e : Err}
    (h : processTransaction db tx bId = (db1, some e)) : e.isInternal = true := by
  unfold processTransaction at h
  rcases hc : createTransaction db tx.id bId with ⟨db2, e2⟩
  rw [hc] at h
  cases e2 with
  | none =>
    simp only [] at h
    rcases hs : spendInputs tx.id db2 tx.inputs 0 with ⟨db3, e3⟩
    rw [hs] at h
    cases e3 with
    | none => exact createOutputs_error_internal h
    | some err =>
      cases (Prod.mk.inj h).2
      exact spendInputs_error_internal hs
  | some err =>
    cases (Prod.mk.inj h).2
    exact createTransaction_error_internal hc

theorem applyTransactions_error_internal {bId : String} :
    ∀ {txs : List Transaction} {db db1 : DB} {e : Err},
      applyTransactions bId db txs = (db1, some e) → e.isInternal = true := by
  intro txs
  induction txs with
  | nil => intro db db1 e h; exact absurd (Prod.mk.inj h).2 (by simp)
  | cons tx rest ih =>
    intro db db1 e h
    unfold applyTransactions at h
    rcases hp : processTransaction db tx bId with ⟨db2, e2⟩
    rw [hp] at h
    cases e2 with
    | none => exact ih h
    | some err =>
      cases (Prod.mk.inj h).2
      exact processTransaction_error_internal hp

theorem applyBlockRaw_error_internal {db db1 : DB} {b : Block} {e : Err}
    (h : applyBlockRaw db b = (db1, some e)) : e.isInternal = true := by
  unfold applyBlockRaw at h
  rcases hc : createBlock db b with ⟨db2, e2⟩
  rw [hc] at h
  cases e2 with
  | none => exact applyTransactions_error_internal h
  | some err =>
    cases (Prod.mk.inj h).2
    exact createBlock_error_internal hc

theorem processBlock_error_cases {db : DB} {b : Block} {e : Err}
    (h : processBlock db b = .error e) :
    validateBlock db b = .error e ∨
    (validateBlock db b = .ok () ∧ e.isInternal = true) := by
  unfold processBlock at h
  rcases hv : validateBlock db b with e' | u
  · rw [hv] at h
    simp only [] at h
    have he : e' = e := Except.error.inj h
    exact Or.inl (by rw [he])
  · rw [hv] at h
    simp only [] at h
    cases u
    rcases ha : applyBlockRaw db b with ⟨db1, e1⟩
    rw [ha] at h
    cases e1 with
    | none => exact absurd h (by simp)
    | some err =>
      simp only [] at h
      exact Or.inr ⟨rfl, (Except.error.inj h) ▸ applyBlockRaw_error_internal ha⟩

/-! ## Helper lemmas: identity check -/

theorem validateBlock_id_error {db : DB} {b : Block}
    (hh : b.height = getCurrentHeight db + 1)
    (hid : b.id ≠ calculateBlockHash b.height (b.transactions.map Transaction.id)) :
    validateBlock db b = .error (.validation
      (s!"Invalid block ID. Expected {calculateBlockHash b.height (b.transactions.map Transaction.id)}, got {b.id}")
      (some "INVALID_BLOCK_ID")) := by
  simp only [validateBlock]
  rw [if_neg (not_not_intro hh), if_pos hid]

theorem validateBlock_eq_vtb {db : DB} {b : Block}
    (hh : b.height = getCurrentHeight db + 1)
    (hid : b.id = calculateBlockHash b.height (b.transactions.map Transaction.id)) :
    validateBlock db b = validateTransactionBalances db b := by
  simp only [validateBlock]
  rw [if_neg (not_not_intro hh), if_neg (not_not_intro hid)]

theorem submitBlock_of_validate_error {db : DB} {b : Block} {e : Err}
    (h : validateBlock db b = .error e) : submitBlock db b = (db, some e) := by
  unfold submitBlock processBlock
  rw [h]

/-- C2: the expected identifier recomputed by admission is the lowercase
64-character hexadecimal SHA-256 digest of the decimal height followed by
the transaction ids in block order with no separators, and once the height
check has passed, admission fails with the identity error reporting both
values exactly when the submitted id differs from this digest. -/
theorem claim_block_identity :
    (∀ h ids, calculateBlockHash h ids = sha256Hex (toString h ++ String.join ids)) ∧
    (∀ h ids, (calculateBlockHash h ids).length = 64 ∧
      ∀ c ∈ (calculateBlockHash h ids).data, c ∈ hexChars) ∧
    (∀ db b, b.height = getCurrentHeight db + 1 →
      (b.id ≠ calculateBlockHash b.height (b.transactions.map Transaction.id) →
        submitBlock db b = (db, some (Err.validation
          (s!"Invalid block ID. Expected {calculateBlockHash b.height (b.transactions.map Transaction.id)}, got {b.id}")
          (some "INVALID_BLOCK_ID")))) ∧
      (b.id = calculateBlockHash b.height (b.transactions.map Transaction.id) →
        ∀ m, processBlock db b ≠ .error (Err.validation m (some "INVALID_BLOCK_ID")))) := by
  refine ⟨fun h ids => rfl,
          fun h ids => ⟨sha256Hex_length _, sha256Hex_chars _⟩,
          fun db b hh => ⟨fun hid => submitBlock_of_validate_error (validateBlock_id_error hh hid),
                          fun hid m hcon => ?_⟩⟩
  rcases processBlock_error_cases hcon with hv | ⟨_, hint⟩
  · rw [validateBlock_eq_vtb hh hid] at hv
    rcases vtb_error_shape hv with ⟨m', hm⟩ | ⟨m', hm⟩ | ⟨m', hm⟩ <;> simp at hm
  · simp [Err.isInternal] at hint

/-- Witness for C2: a height-1 block with a wrong id on the empty ledger
is rejected with the identity error, and the genesis block with the
correctly computed id never produces an identity error. -/
theorem claim_block_identity_witness :
    submitBlock DB.empty ⟨"wrong", 1, []⟩ = (DB.empty, some (Err.validation
      (s!"Invalid block ID. Expected {calculateBlockHash 1 []}, got wrong")
      (some "INVALID_BLOCK_ID"))) ∧
    processBlock DB.empty genesisB ≠ .error (Err.validation "m" (some "INVALID_BLOCK_ID")) :=
  ⟨(claim_block_identity.2.2 DB.empty ⟨"wrong", 1, []⟩ (by decide)).1 (by decide),
   (claim_block_identity.2.2 DB.empty genesisB (by decide)).2 (by decide) "m"⟩

/-! ## Helper lemmas: value accumulation -/

theorem foldl_add_sum (l : List Output) (acc : Rat) :
    l.foldl (fun a o => a + o.value) acc = acc + (l.map Output.value).sum := by
  induction l generalizing acc with
  | nil => simp
  | cons o rest ih =>
    simp only [List.foldl_cons, List.map_cons, List.sum_cons, ih]
    ring

theorem scanInputs_ok_sum {db : DB} :
    ∀ {l : List Input} {acc v : Rat}, scanInputs db l acc = .ok v →
      v = acc + (l.map (refValue db)).sum := by
  intro l
  induction l with
  | nil =>
    intro acc v h
    unfold scanInputs at h
    simp [Except.ok.inj h]
  | cons inp rest ih =>
    intro acc v h
    unfold scanInputs at h
    rcases hg : getOutput db inp.txId inp.index with _ | o
    · rw [hg] at h; exact absurd h (by simp)
    · rw [hg] at h
      simp only [] at h
      by_cases hs : o.spent = true
      · rw [if_pos hs] at h; exact absurd h (by simp)
      · rw [if_neg hs] at h
        rw [ih h]
        have hr : refValue db inp = o.value := by simp [refValue, hg]
        rw [List.map_cons, List.sum_cons, hr]
        ring

theorem scanInputs_ok_refs {db : DB} :
    ∀ {l : List Input} {acc v : Rat}, scanInputs db l acc = .ok v →
      ∀ inp ∈ l, ∃ o, getOutput db inp.txId inp.index = some o ∧ o.spent = false := by
  intro l
  induction l with
  | nil => intro acc v _ inp hmem; cases hmem
  | cons inp0 rest ih =>
    intro acc v h inp hmem
    unfold scanInputs at h
    rcases hg : getOutput db inp0.txId inp0.index with _ | o
    · rw [hg] at h; exact absurd h (by simp)
    · rw [hg] at h
      simp only [] at h
      by_cases hs : o.spent = true
      · rw [if_pos hs] at h; exact absurd h (by simp)
      · rw [if_neg hs] at h
        rcases List.mem_cons.mp hmem with rfl | hmem'
        · exact ⟨o, hg, Bool.not_eq_true _ ▸ hs⟩
        · exact ih h inp hmem'

theorem scanTransactions_ok_sums {db : DB} :
    ∀ {txs : List Transaction} {tin tout vin vout : Rat},
      scanTransactions db txs tin tout = .ok (vin, vout) →
      vin = tin + ((txs.flatMap Transaction.inputs).map (refValue db)).sum ∧
      vout = tout + ((txs.flatMap Transaction.outputs).map Output.value).sum := by
  intro txs
  induction txs with
  | nil =>
    intro tin tout vin vout h
    unfold scanTransactions at h
    have := Except.ok.inj h
    simp [Prod.mk.injEq] at this
    simp [this.1, this.2]
  | cons tx rest ih =>
    intro tin tout vin vout h
    unfold scanTransactions at h
    rcases hs : scanInputs db tx.inputs tin with e | tin'
    · rw [hs] at h; exact absurd h (by simp)
    · rw [hs] at h
      simp only [] at h
      rcases ih h with ⟨h1, h2⟩
      constructor
      · rw [h1, scanInputs_ok_sum hs]
        simp only [List.flatMap_cons, List.map_append, List.sum_append]
        ring
      · rw [h2, foldl_add_sum]
        simp only [List.flatMap_cons, List.map_append, List.sum_append]
        ring

theorem scanTransactions_ok_refs {db : DB} {b : Block} {vin vout : Rat}
    (h : scanTransactions db b.transactions 0 0 = .ok (vin, vout)) :
    ∀ inp ∈ flatInputs b, ∃ o, getOutput db inp.txId inp.index = some o ∧ o.spent = false := by
  suffices hgen : ∀ (txs : List Transaction) (tin tout vin vout : Rat),
      scanTransactions db txs tin tout = .ok (vin, vout) →
      ∀ inp ∈ txs.flatMap Transaction.inputs,
        ∃ o, getOutput db inp.txId inp.index = some o ∧ o.spent = false by
    exact fun inp hmem => hgen b.transactions 0 0 vin vout h inp hmem
  intro txs
  induction txs with
  | nil => intro tin tout vin vout _ inp hmem; simp at hmem
  | cons tx rest ih =>
    intro tin tout vin vout h inp hmem
    unfold scanTransactions at h
    rcases hs : scanInputs db tx.inputs tin with e | tin'
    · rw [hs] at h; exact absurd h (by simp)
    · rw [hs] at h
      simp only [] at h
      rw [List.flatMap_cons] at hmem
      rcases List.mem_append.mp hmem with hm | hm
      · exact scanInputs_ok_refs hs inp hm
      · exact ih _ _ _ _ h inp hm

/-- C3: once height and identity have passed, with all input references
resolving (a successful balance scan), the scanned totals are exactly the
sums of referenced-output values and created-output values; for heights
above 1, admission fails with the conservation error reporting both
totals exactly when they differ by more than `1e-6`, while a height-1
(genesis) block is exempt and may mint value with no inputs. -/
theorem claim_value_conservation :
    ∀ (db : DB) (b : Block) (tin tout : Rat),
      b.height = getCurrentHeight db + 1 →
      b.id = calculateBlockHash b.height (b.transactions.map Transaction.id) →
      scanTransactions db b.transactions 0 0 = .ok (tin, tout) →
      (tin = inputsSum db b ∧ tout = outputsSum b) ∧
      (1 < b.height → valueTolerance < |tin - tout| →
        submitBlock db b = (db, some (Err.validation
          (s!"Input/Output value mismatch. Inputs: {tin}, Outputs: {tout}")
          (some "VALUE_MISMATCH")))) ∧
      (|tin - tout| ≤ valueTolerance → validateBlock db b = .ok ()) ∧
      (b.height = 1 → validateBlock db b = .ok ()) := by
  intro db b tin tout hh hid hscan
  have hsums := scanTransactions_ok_sums hscan
  have hvtb : validateTransactionBalances db b =
      (if 1 < b.height ∧ valueTolerance < |tin - tout| then
        .error (Err.validation
          (s!"Input/Output value mismatch. Inputs: {tin}, Outputs: {tout}")
          (some "VALUE_MISMATCH"))
      else .ok ()) := by
    unfold validateTransactionBalances
    rw [hscan]
  refine ⟨⟨by simpa [inputsSum, flatInputs] using hsums.1,
           by simpa [outputsSum] using hsums.2⟩, ?_, ?_, ?_⟩
  · intro h1 h2
    apply submitBlock_of_validate_error
    rw [validateBlock_eq_vtb hh hid, hvtb, if_pos ⟨h1, h2⟩]
  · intro hle
    rw [validateBlock_eq_vtb hh hid, hvtb,
        if_neg (fun hc => absurd hc.2 (not_lt.mpr hle))]
  · intro h1
    rw [validateBlock_eq_vtb hh hid, hvtb,
        if_neg (fun hc => by rw [h1] at hc; exact absurd hc.1 (by norm_num))]

/-- Witness for C3: `blockBadVal` (inputs 100, outputs 50) on the
genesis state is rejected with the conservation error, while the genesis
block itself (height 1, no inputs, outputs 100) passes validation. -/
theorem claim_value_conservation_witness :
    submitBlock dbG blockBadVal = (dbG, some (Err.validation
      (s!"Input/Output value mismatch. Inputs: {mismatchIns}, Outputs: {mismatchOuts}")
      (some "VALUE_MISMATCH"))) ∧
    validateBlock DB.empty genesisB = .ok () :=
  ⟨(claim_value_conservation dbG blockBadVal mismatchIns mismatchOuts
      (by decide) (by decide) (by decide)).2.1 (by decide) (by decide),
   (claim_value_conservation DB.empty genesisB 0 100
      (by decide) (by decide) (by decide)).2.2.2 (by decide)⟩

/-! ## Helper lemmas: first failing input determines the reported error -/

theorem find?_append_some {α : Type} {l1 l2 : List α} {p : α → Bool} {x : α}
    (h : l1.find? p = some x) : (l1 ++ l2).find? p = some x := by
  induction l1 with
  | nil => simp [List.find?] at h
  | cons a rest ih =>
    rw [List.cons_append]
    rcases hp : p a with _ | _
    · rw [List.find?_cons_of_neg _ (by simp [hp])] at h ⊢
      exact ih h
    · rw [List.find?_cons_of_pos _ hp] at h ⊢
      exact h

theorem find?_append_none {α : Type} {l1 l2 : List α} {p : α → Bool}
    (h : l1.find? p = none) : (l1 ++ l2).find? p = l2.find? p := by
  induction l1 with
  | nil => simp
  | cons a rest ih =>
    rw [List.cons_append]
    rcases hp : p a with _ | _
    · rw [List.find?_cons_of_neg _ (by simp [hp])] at h ⊢
      exact ih h
    · rw [List.find?_cons_of_pos _ hp] at h
      exact absurd h (by simp)

theorem scanInputs_of_first_bad {db : DB} :
    ∀ (l : List Input) (acc : Rat),
      (∀ inp, l.find? (isBadInput db) = some inp →
        scanInputs db l acc = .error (badInputError db inp)) ∧
      (l.find? (isBadInput db) = none → ∃ v, scanInputs db l acc = .ok v) := by
  intro l
  induction l with
  | nil =>
    intro acc
    exact ⟨fun inp h => by simp [List.find?] at h, fun _ => ⟨acc, rfl⟩⟩
  | cons inp0 rest ih =>
    intro acc
    rcases hb : isBadInput db inp0 with _ | _
    · -- first input is fine: an output exists and is unspent
      unfold isBadInput at hb
      rcases hg : getOutput db inp0.txId inp0.index with _ | o
      · rw [hg] at hb; exact absurd hb (by simp)
      · rw [hg] at hb
        simp only [] at hb
        constructor
        · intro inp h
          rw [List.find?_cons_of_neg _ (by simp [isBadInput, hg, hb])] at h
          show (match getOutput db inp0.txId inp0.index with
            | none => Except.error (Err.validation
                ("Input references non-existent output: " ++ inp0.txId ++ ":" ++ toString inp0.index)
                (some "INVALID_INPUT"))
            | some o =>
              if o.spent then Except.error (Err.conflict
                  ("Output already spent: " ++ inp0.txId ++ ":" ++ toString inp0.index)
                  (some "DOUBLE_SPEND"))
              else scanInputs db rest (acc + o.value)) = .error (badInputError db inp)
          rw [hg]
          simp only [hb, Bool.false_eq_true, if_false]
          exact (ih (acc + o.value)).1 inp h
        · intro h
          rw [List.find?_cons_of_neg _ (by simp [isBadInput, hg, hb])] at h
          rcases (ih (acc + o.value)).2 h with ⟨v, hv⟩
          refine ⟨v, ?_⟩
          show (match getOutput db inp0.txId inp0.index with
            | none => Except.error (Err.validation
                ("Input references non-existent output: " ++ inp0.txId ++ ":" ++ toString inp0.index)
                (some "INVALID_INPUT"))
            | some o =>
              if o.spent then Except.error (Err.conflict
                  ("Output already spent: " ++ inp0.txId ++ ":" ++ toString inp0.index)
                  (some "DOUBLE_SPEND"))
              else scanInputs db rest (acc + o.value)) = .ok v
          rw [hg]
          simp only [hb, Bool.false_eq_true, if_false]
          exact hv
    · -- first input is bad: the scan reports it
      constructor
      · intro inp h
        rw [List.find?_cons_of_pos _ hb] at h
        cases Option.some.inj h
        show (match getOutput db inp0.txId inp0.index with
          | none => Except.error (Err.validation
              ("Input references non-existent output: " ++ inp0.txId ++ ":" ++ toString inp0.index)
              (some "INVALID_INPUT"))
          | some o =>
            if o.spent then Except.error (Err.conflict
                ("Output already spent: " ++ inp0.txId ++ ":" ++ toString inp0.index)
                (some "DOUBLE_SPEND"))
            else scanInputs db rest (acc + o.value)) = .error (badInputError db inp0)
        unfold isBadInput at hb
        unfold badInputError
        rcases hg : getOutput db inp0.txId inp0.index with _ | o
        · rfl
        · rw [hg] at hb
          simp only [] at hb
          simp only [hb, if_true]
      · intro h
        rw [List.find?_cons_of_pos _ hb] at h
        exact absurd h (by simp)

theorem scanTransactions_of_first_bad {db : DB} :
    ∀ (txs : List Transaction) (tin tout : Rat),
      (∀ inp, (txs.flatMap Transaction.inputs).find? (isBadInput db) = some inp →
        scanTransactions db txs tin tout = .error (badInputError db inp)) ∧
      ((txs.flatMap Transaction.inputs).find? (isBadInput db) = none →
        ∃ p, scanTransactions db txs tin tout = .ok p) := by
  intro txs
  induction txs with
  | nil =>
    intro tin tout
    exact ⟨fun inp h => by simp [List.find?] at h, fun _ => ⟨(tin, tout), rfl⟩⟩
  | cons tx rest ih =>
    intro tin tout
    rw [List.flatMap_cons]
    constructor
    · intro inp h
      rcases hf : tx.inputs.find? (isBadInput db) with _ | inp1
      · rw [find?_append_none hf] at h
        rcases (scanInputs_of_first_bad tx.inputs tin).2 hf with ⟨v, hv⟩
        show (match scanInputs db tx.inputs tin with
          | .error e => Except.error e
          | .ok tin' => scanTransactions db rest tin'
              (tx.outputs.foldl (fun acc (o : Output) => acc + o.value) tout)) =
            .error (badInputError db inp)
        rw [hv]
        exact (ih v (tx.outputs.foldl (fun acc o => acc + o.value) tout)).1 inp h
      · rw [find?_append_some hf] at h
        cases Option.some.inj h
        have hv := (scanInputs_of_first_bad tx.inputs tin).1 inp hf
        show (match scanInputs db tx.inputs tin with
          | .error e => Except.error e
          | .ok tin' => scanTransactions db rest tin'
              (tx.outputs.foldl (fun acc (o : Output) => acc + o.value) tout)) =
            .error (badInputError db inp)
        rw [hv]
    · intro h
      rcases hf : tx.inputs.find? (isBadInput db) with _ | inp1
      · rw [find?_append_none hf] at h
        rcases (scanInputs_of_first_bad tx.inputs tin).2 hf with ⟨v, hv⟩
        rcases (ih v (tx.outputs.foldl (fun acc o => acc + o.value) tout)).2 h
          with ⟨p, hp⟩
        refine ⟨p, ?_⟩
        show (match scanInputs db tx.inputs tin with
          | .error e => Except.error e
          | .ok tin' => scanTransactions db rest tin'
              (tx.outputs.foldl (fun acc (o : Output) => acc + o.value) tout)) = .ok p
        rw [hv]
        exact hp
      · rw [find?_append_some hf] at h
        exact absurd h (by simp)

/-- C4: the four admission checks run in the fixed order height,
identity, input validity, value conservation; the first failing check
determines the single reported error.  Within input validity the first
bad input (in block order) decides: a missing reference yields the
referential `INVALID_INPUT` validation error, an already-spent reference
yields the distinct `DOUBLE_SPEND` conflict error; and a conservation
error can only be reported when every input reference is valid. -/
theorem claim_check_order :
    (∀ db b, b.height ≠ getCurrentHeight db + 1 →
      ∃ m, submitBlock db b = (db, some (Err.validation m (some "INVALID_HEIGHT")))) ∧
    (∀ db b, b.height = getCurrentHeight db + 1 →
      b.id ≠ calculateBlockHash b.height (b.transactions.map Transaction.id) →
      ∃ m, submitBlock db b = (db, some (Err.validation m (some "INVALID_BLOCK_ID")))) ∧
    (∀ db b inp, b.height = getCurrentHeight db + 1 →
      b.id = calculateBlockHash b.height (b.transactions.map Transaction.id) →
      firstBadInput db b = some inp →
      (getOutput db inp.txId inp.index = none →
        submitBlock db b = (db, some (Err.validation
          ("Input references non-existent output: " ++ inp.txId ++ ":" ++ toString inp.index)
          (some "INVALID_INPUT")))) ∧
      (∀ o, getOutput db inp.txId inp.index = some o →
        submitBlock db b = (db, some (Err.conflict
          ("Output already spent: " ++ inp.txId ++ ":" ++ toString inp.index)
          (some "DOUBLE_SPEND"))))) ∧
    (∀ db b, b.height = getCurrentHeight db + 1 →
      b.id = calculateBlockHash b.height (b.transactions.map Transaction.id) →
      firstBadInput db b = none →
      ∀ e, validateBlock db b = .error e →
        ∃ m, e = Err.validation m (some "VALUE_MISMATCH")) := by
  refine ⟨fun db b h => ⟨_, height_mismatch_error h⟩,
          fun db b hh hid => ⟨_, submitBlock_of_validate_error (validateBlock_id_error hh hid)⟩,
          fun db b inp hh hid hbad => ?_, fun db b hh hid hnone e he => ?_⟩
  · have hscan := (scanTransactions_of_first_bad b.transactions 0 0).1 inp hbad
    have hvtb : validateTransactionBalances db b = .error (badInputError db inp) := by
      unfold validateTransactionBalances
      rw [hscan]
    have hsub := submitBlock_of_validate_error ((validateBlock_eq_vtb hh hid).trans hvtb)
    constructor
    · intro hg
      rw [show badInputError db inp = Err.validation
          ("Input references non-existent output: " ++ inp.txId ++ ":" ++ toString inp.index)
          (some "INVALID_INPUT") by unfold badInputError; rw [hg]] at hsub
      exact hsub
    · intro o hg
      rw [show badInputError db inp = Err.conflict
          ("Output already spent: " ++ inp.txId ++ ":" ++ toString inp.index)
          (some "DOUBLE_SPEND") by unfold badInputError; rw [hg]] at hsub
      exact hsub
  · rw [validateBlock_eq_vtb hh hid] at he
    rcases (scanTransactions_of_first_bad b.transactions 0 0).2 hnone with ⟨p, hp⟩
    unfold validateTransactionBalances at he
    rw [hp] at he
    rcases p with ⟨tin, tout⟩
    simp only [] at he
    split at he
    · exact ⟨_, (Except.error.inj he).symm⟩
    · exact absurd he (by simp)

/-- Witness for C4 at concrete inputs: a wrong-height block reports the
sequencing error even though its id is also wrong; a missing reference
reports `INVALID_INPUT`; a spent reference reports `DOUBLE_SPEND`; and a
block whose inputs are all valid reports only `VALUE_MISMATCH`. -/
theorem claim_check_order_witness :
    (∃ m, submitBlock DB.empty bBad = (DB.empty, some (Err.validation m (some "INVALID_HEIGHT")))) ∧
    (∃ m, submitBlock DB.empty ⟨"wrong", 1, []⟩ =
      (DB.empty, some (Err.validation m (some "INVALID_BLOCK_ID")))) ∧
    submitBlock dbG blockMissRef = (dbG, some (Err.validation
      ("Input references non-existent output: " ++ "nope" ++ ":" ++ toString 0)
      (some "INVALID_INPUT"))) ∧
    submitBlock dbG2 blockConflict = (dbG2, some (Err.conflict
      ("Output already spent: " ++ "tx1" ++ ":" ++ toString 0)
      (some "DOUBLE_SPEND"))) ∧
    (∃ m, (Err.validation (s!"Input/Output value mismatch. Inputs: {mismatchIns}, Outputs: {mismatchOuts}")
        (some "VALUE_MISMATCH")) = Err.validation m (some "VALUE_MISMATCH")) :=
  ⟨claim_check_order.1 DB.empty bBad (by decide),
   claim_check_order.2.1 DB.empty ⟨"wrong", 1, []⟩ (by decide) (by decide),
   (claim_check_order.2.2.1 dbG blockMissRef ⟨"nope", 0⟩
      (by decide) (by decide) (by decide)).1 (by decide),
   (claim_check_order.2.2.1 dbG2 blockConflict ⟨"tx1", 0⟩
      (by decide) (by decide) (by decide)).2
      ⟨"tx1", 0, "addr1", 100, true, some "tx2", some 0⟩ (by decide),
   claim_check_order.2.2.2 dbG blockBadVal (by decide) (by decide) (by decide)
     (Err.validation (s!"Input/Output value mismatch. Inputs: {mismatchIns}, Outputs: {mismatchOuts}")
        (some "VALUE_MISMATCH")) (by decide)⟩

/-! ## Helper lemmas: rollback height -/

theorem foldr_max_ub {l : List Nat} {m : Nat} (h : ∀ x ∈ l, x ≤ m) :
    l.foldr max 0 ≤ m := by
  induction l with
  | nil => exact Nat.zero_le m
  | cons a t ih =>
    exact Nat.max_le.mpr ⟨h a (List.mem_cons_self a t), ih (fun x hx => h x (List.mem_cons_of_mem a hx))⟩

theorem foldl_unspendTx_tables :
    ∀ (l : List TxRow) (db : DB),
      (l.foldl (fun a t => unspendOutputsByTransaction a t.id) db).blocks = db.blocks ∧
      (l.foldl (fun a t => unspendOutputsByTransaction a t.id) db).transactions =
        db.transactions := by
  intro l
  induction l with
  | nil => intro db; exact ⟨rfl, rfl⟩
  | cons t rest ih =>
    intro db
    rw [List.foldl_cons]
    exact ih (unspendOutputsByTransaction db t.id)

theorem foldl_unspendBlocks_tables :
    ∀ (l : List BlockRow) (db : DB),
      (l.foldl (fun acc blk => (getTransactionsByBlockId acc blk.id).foldl
        (fun a t => unspendOutputsByTransaction a t.id) acc) db).blocks = db.blocks ∧
      (l.foldl (fun acc blk => (getTransactionsByBlockId acc blk.id).foldl
        (fun a t => unspendOutputsByTransaction a t.id) acc) db).transactions =
          db.transactions := by
  intro l
  induction l with
  | nil => intro db; exact ⟨rfl, rfl⟩
  | cons blk rest ih =>
    intro db
    rw [List.foldl_cons]
    have h1 := foldl_unspendTx_tables (getTransactionsByBlockId db blk.id) db
    have h2 := ih ((getTransactionsByBlockId db blk.id).foldl
      (fun a t => unspendOutputsByTransaction a t.id) db)
    exact ⟨h2.1.trans h1.1, h2.2.trans h1.2⟩

theorem rollbackApply_blocks (db : DB) (tn : Nat) :
    (rollbackApply db tn).blocks = db.blocks.filter (fun r => !decide (tn < r.height)) := by
  unfold rollbackApply deleteBlocksAboveHeight
  simp only []
  rw [(foldl_unspendBlocks_tables (getBlocksAboveHeight db tn) db).1]

theorem rollbackApply_height {db : DB} {tn : Nat}
    (hc : HeightsComplete db) (hle : tn ≤ getCurrentHeight db) :
    getCurrentHeight (rollbackApply db tn) = tn := by
  have hb := rollbackApply_blocks db tn
  show ((rollbackApply db tn).blocks.map (fun r => r.height)).foldr max 0 = tn
  rw [hb]
  have hub : ∀ x ∈ (db.blocks.filter (fun r => !decide (tn < r.height))).map
      (fun r => r.height), x ≤ tn := by
    intro x hx
    rcases List.mem_map.mp hx with ⟨r, hr, rfl⟩
    have := List.of_mem_filter hr
    simpa using this
  rcases Nat.eq_zero_or_pos tn with rfl | hpos
  · exact Nat.le_antisymm (foldr_max_ub hub) (Nat.zero_le _)
  · rcases hc tn (by simpa using Nat.lt_succ_of_le hle) (Nat.pos_iff_ne_zero.mp hpos)
      with ⟨blk, hmem, hh⟩
    apply Nat.le_antisymm (foldr_max_ub hub)
    apply le_foldr_max
    apply List.mem_map.mpr
    refine ⟨blk, List.mem_filter.mpr ⟨hmem, by simp [hh]⟩, hh⟩

/-- C6: rollback checks its preconditions in order — `t ≥ 0` (else a
parameter error), `t ≤ currentHeight` (else a future-height error),
`currentHeight − t ≤ 2000`, the configured maximum depth (else an
excessive-rollback error) — and when all three hold it succeeds and the
resulting current height equals `t` (on a ledger whose heights form the
contiguous run `[1..currentHeight]`). -/
theorem claim_rollback_preconditions :
    maxRollbackBlocks = 2000 ∧
    (∀ db (t : Int), t < 0 →
      submitRollback db t = (db, some (Err.validation "Invalid height parameter"
        (some "INVALID_HEIGHT")))) ∧
    (∀ db (t : Int), 0 ≤ t → (getCurrentHeight db : Int) < t →
      submitRollback db t = (db, some (Err.validation
        (s!"Cannot rollback to future height. Current: {getCurrentHeight db}, Target: {t}")
        (some "FUTURE_HEIGHT")))) ∧
    (∀ db (t : Int), 0 ≤ t → t ≤ (getCurrentHeight db : Int) →
      (maxRollbackBlocks : Int) < (getCurrentHeight db : Int) - t →
      submitRollback db t = (db, some (Err.validation
        (s!"Cannot rollback more than {maxRollbackBlocks} blocks. Current: {getCurrentHeight db}, Target: {t}")
        (some "EXCESSIVE_ROLLBACK")))) ∧
    (∀ db (t : Int), 0 ≤ t → t ≤ (getCurrentHeight db : Int) →
      (getCurrentHeight db : Int) - t ≤ (maxRollbackBlocks : Int) →
      rollback db t = .ok (rollbackApply db t.toNat) ∧
      (HeightsComplete db → getCurrentHeight (rollbackApply db t.toNat) = t.toNat)) := by
  refine ⟨rfl, fun db t h => ?_, fun db t h0 hf => ?_, fun db t h0 hle hex => ?_,
          fun db t h0 hle hd => ?_⟩
  · unfold submitRollback rollback
    rw [if_pos h]
  · unfold submitRollback rollback
    rw [if_neg (not_lt.mpr h0), if_pos hf]
  · unfold submitRollback rollback
    rw [if_neg (not_lt.mpr h0), if_neg (not_lt.mpr hle), if_pos hex]
  · have hr : rollback db t = .ok (rollbackApply db t.toNat) := by
      unfold rollback
      rw [if_neg (not_lt.mpr h0), if_neg (not_lt.mpr hle), if_neg (not_lt.mpr hd)]
    refine ⟨hr, fun hc => rollbackApply_height hc ?_⟩
    have : (t.toNat : Int) ≤ (getCurrentHeight db : Int) := by
      rwa [Int.toNat_of_nonneg h0]
    exact_mod_cast this

theorem range_blocks_height :
    ∀ n : Nat, (((List.range n).map (fun i => (⟨toString (i + 1), i + 1⟩ : BlockRow))).map
      (fun r => r.height)).foldr max 0 = n := by
  intro n
  induction n with
  | zero => rfl
  | succ k ih =>
    rw [List.range_succ, List.map_append, List.map_append]
    simp only [List.map_cons, List.map_nil]
    rw [foldr_max_append, ih]
    exact Nat.max_eq_right (Nat.le_succ k)

theorem dbTall_current_height : getCurrentHeight dbTall = 2001 :=
  range_blocks_height 2001

/-- Witness for C6 at concrete inputs: target −1 gives the parameter
error, target 5 on the height-2 ledger gives the future-height error,
target 0 on a 2001-block ledger gives the excessive-rollback error, and
target 1 on the height-2 ledger succeeds with resulting height 1. -/
theorem claim_rollback_preconditions_witness :
    submitRollback dbG2 tNeg = (dbG2, some (Err.validation "Invalid height parameter"
      (some "INVALID_HEIGHT"))) ∧
    submitRollback dbG2 tFar = (dbG2, some (Err.validation
      (s!"Cannot rollback to future height. Current: {getCurrentHeight dbG2}, Target: {tFar}")
      (some "FUTURE_HEIGHT"))) ∧
    submitRollback dbTall tZero = (dbTall, some (Err.validation
      (s!"Cannot rollback more than {maxRollbackBlocks} blocks. Current: {getCurrentHeight dbTall}, Target: {tZero}")
      (some "EXCESSIVE_ROLLBACK"))) ∧
    rollback dbG2 tOne = .ok (rollbackApply dbG2 tOne.toNat) ∧
    getCurrentHeight (rollbackApply dbG2 tOne.toNat) = tOne.toNat :=
  ⟨claim_rollback_preconditions.2.1 dbG2 tNeg (by decide),
   claim_rollback_preconditions.2.2.1 dbG2 tFar (by decide) (by decide),
   claim_rollback_preconditions.2.2.2.1 dbTall tZero (by decide)
     (by rw [dbTall_current_height]; decide) (by rw [dbTall_current_height]; decide),
   (claim_rollback_preconditions.2.2.2.2 dbG2 tOne (by decide) (by decide) (by decide)).1,
   (claim_rollback_preconditions.2.2.2.2 dbG2 tOne (by decide) (by decide) (by decide)).2
     (by decide)⟩

/-! ## Helper lemmas: balance -/

theorem getBalanceForAddress_eq_unspentSumFor (db : DB) (a : String) :
    getBalanceForAddress db a = unspentSumFor db.outputs a := rfl

theorem markRow_of_no_key {k : String} {i : Nat} {τ : String} {j : Nat} {r : OutputRecord}
    (h : ¬(r.tx_id = k ∧ r.output_index = i)) : markRow k i τ j r = r := by
  unfold markRow
  rw [if_neg]
  intro hc
  simp only [Bool.and_eq_true, beq_iff_eq] at hc
  exact h ⟨hc.1.1, hc.1.2⟩

theorem unspentSumFor_mark {k : String} {i : Nat} {τ : String} {j : Nat} {a : String} :
    ∀ {outs : List OutputRecord} {o : OutputRecord},
      outs.Pairwise (fun r s => ¬(r.tx_id = s.tx_id ∧ r.output_index = s.output_index)) →
      outs.find? (fun r => r.tx_id == k && r.output_index == i) = some o →
      o.spent = false →
      unspentSumFor (outs.map (markRow k i τ j)) a =
        unspentSumFor outs a - (if o.address = a then o.value else 0) := by
  intro outs
  induction outs with
  | nil => intro o _ hf; simp [List.find?] at hf
  | cons r rest ih =>
    intro o hpw hf hsp
    rcases hk : (r.tx_id == k && r.output_index == i) with _ | _
    · -- head key does not match: recurse
      rw [List.find?_cons_of_neg _ (by simp [hk])] at hf
      have hr : markRow k i τ j r = r := by
        apply markRow_of_no_key
        intro hc
        rw [hc.1, hc.2] at hk
        simp at hk
      rw [List.map_cons, hr]
      unfold unspentSumFor
      rcases ha : (r.address == a && !r.spent) with _ | _
      · rw [List.filter_cons_of_neg (by simp [ha]), List.filter_cons_of_neg (by simp [ha])]
        exact ih (List.Pairwise.of_cons hpw) hf hsp
      · rw [List.filter_cons_of_pos (by simp [ha]), List.filter_cons_of_pos (by simp [ha])]
        simp only [List.map_cons, List.sum_cons]
        have := ih (List.Pairwise.of_cons hpw) hf hsp
        unfold unspentSumFor at this
        rw [this]
        ring
    · -- head key matches: it is the unique matching row
      rw [List.find?_cons_of_pos _ (by simp [hk])] at hf
      cases Option.some.inj hf
      simp only [Bool.and_eq_true, beq_iff_eq] at hk
      have hrest_id : rest.map (markRow k i τ j) = rest := by
        have h1 : rest.map (markRow k i τ j) = rest.map id := by
          apply List.map_congr_left
          intro s hs
          show markRow k i τ j s = s
          apply markRow_of_no_key
          intro hc
          exact (List.pairwise_cons.mp hpw).1 s hs ⟨hk.1.trans hc.1.symm, hk.2.trans hc.2.symm⟩
        simpa using h1
      have hmr : markRow k i τ j r =
          { r with spent := true, spent_by_tx := some τ, spent_by_index := some j } := by
        unfold markRow
        rw [if_pos (by simp [hk.1, hk.2, hsp])]
      rw [List.map_cons, hmr, hrest_id]
      unfold unspentSumFor
      rw [List.filter_cons_of_neg (by simp)]
      by_cases ha : r.address = a
      · rw [List.filter_cons_of_pos (by simp [ha, hsp])]
        simp only [List.map_cons, List.sum_cons, if_pos ha]
        ring
      · rw [List.filter_cons_of_neg (by simp [ha]), if_neg ha]
        ring

/-- C7: `balance(a)` is the sum of `value` over the unspent outputs owned
by `a`; an address with no outputs yields 0 and never an error; the
result is non-negative whenever all stored values are (as the schema
guarantees at creation); and a successful conditional mark-spent of an
output owned by `a` decreases `balance(a)` by exactly that output's
value. -/
theorem claim_balance :
    (∀ db a, getBalance db a =
      ((db.outputs.filter (fun r => decide (r.address = a ∧ r.spent = false))).map
        OutputRecord.value).sum) ∧
    (∀ db a, (∀ o ∈ db.outputs, o.address ≠ a) → getBalance db a = 0) ∧
    (∀ db a, (∀ o ∈ db.outputs, 0 ≤ o.value) → 0 ≤ getBalance db a) ∧
    (∀ db db2 a k i τ j o, UniqueKeys db →
      markOutputAsSpent db k i τ j = (db2, none) →
      getOutput db k i = some o → o.spent = false → o.address = a →
      getBalance db2 a = getBalance db a - o.value) := by
  refine ⟨fun db a => ?_, fun db a h => ?_, fun db a h => ?_,
          fun db db2 a k i τ j o hu hm hg hsp ha => ?_⟩
  · show unspentSumFor db.outputs a = _
    unfold unspentSumFor
    have hfil : db.outputs.filter (fun r => r.address == a && !r.spent) =
        db.outputs.filter (fun r => decide (r.address = a ∧ r.spent = false)) := by
      apply List.filter_congr
      intro r _
      by_cases h1 : r.address = a <;> by_cases h2 : r.spent <;> simp [h1, h2]
    rw [hfil]
  · show unspentSumFor db.outputs a = 0
    unfold unspentSumFor
    rw [List.filter_eq_nil_iff.mpr]
    · rfl
    · intro r hr
      simp [h r hr]
  · show 0 ≤ unspentSumFor db.outputs a
    apply List.sum_nonneg
    intro x hx
    rcases List.mem_map.mp hx with ⟨r, hr, rfl⟩
    exact h r (List.mem_of_mem_filter hr)
  · have hdb2 := (markOutputAsSpent_ok hm).1
    have : db2.outputs = db.outputs.map (markRow k i τ j) := by rw [hdb2]; rfl
    show unspentSumFor db2.outputs a = unspentSumFor db.outputs a - o.value
    rw [this, unspentSumFor_mark hu hg hsp, if_pos ha]

/-- Witness for C7 at concrete inputs: on the genesis state
`balance(addr1) = 100`, an unknown address yields 0, the balance is
non-negative, and marking `tx1:0` spent drops `balance(addr1)` by 100. -/
theorem claim_balance_witness :
    getBalance dbG "addr1" =
      ((dbG.outputs.filter (fun r => decide (r.address = "addr1" ∧ r.spent = false))).map
        OutputRecord.value).sum ∧
    getBalance dbG "nobody" = 0 ∧
    (0 : Rat) ≤ getBalance dbG "addr1" ∧
    getBalance dbGmarked "addr1" = getBalance dbG "addr1" - 100 :=
  ⟨claim_balance.1 dbG "addr1",
   claim_balance.2.1 dbG "nobody" (by decide),
   claim_balance.2.2.1 dbG "addr1" (by decide),
   claim_balance.2.2.2 dbG dbGmarked "addr1" "tx1" 0 "tx2" 0
     ⟨"tx1", 0, "addr1", 100, false, none, none⟩
     (by decide) (by decide) (by decide) (by decide) (by decide)⟩

/-! ## Structural validator: characterization -/

/-- Counterexample for C9: the validator accepts a block whose height is
the non-integer number `3/2` and an input whose index is the non-integer
number `1/2` — integrality is not checked. -/
theorem claim_schema_integrality_counterexample :
    validateBlockSchema vHalfBlock = .ok ⟨"b1", 3 / 2, []⟩ ∧
    validateInputSchema vHalfInput = .ok ⟨"t", 1 / 2⟩ := by
  constructor <;> decide

/-- C9 (amended): the validator rejects a block unless its `id` is a
non-empty string, its `height` is a number `≥ 1`, and its `transactions`
field is a list; and rejects an input unless `txId` is a non-empty
string and `index` is a number `≥ 0`.  Integrality is not checked, so
non-integer numeric heights and indexes are accepted. -/
theorem claim_schema_validation :
    (∀ (v : JVal) (b : SchemaBlock), validateBlockSchema v = .ok b →
      v.isObjectLike = true ∧
      v.get "id" = some (.jstr b.id) ∧ b.id ≠ "" ∧
      v.get "height" = some (.jnum b.height) ∧ 1 ≤ b.height ∧
      ∃ txs, v.get "transactions" = some (.jarr txs)) ∧
    (∀ (v : JVal) (inp : SchemaInput), validateInputSchema v = .ok inp →
      v.isObjectLike = true ∧
      v.get "txId" = some (.jstr inp.txId) ∧ inp.txId ≠ "" ∧
      v.get "index" = some (.jnum inp.index) ∧ 0 ≤ inp.index) ∧
    (∀ (v : JVal) (s : String) (q : Rat), v.isObjectLike = true →
      v.get "txId" = some (.jstr s) → s ≠ "" →
      v.get "index" = some (.jnum q) → 0 ≤ q →
      validateInputSchema v = .ok ⟨s, q⟩) := by
  refine ⟨fun v b h => ?_, fun v inp h => ?_, fun v s q hobj hid hs hix hq => ?_⟩
  · unfold validateBlockSchema at h
    split at h
    · exact absurd h (by simp)
    · next hobj =>
      have hobj' : v.isObjectLike = true := by simpa using hobj
      refine ⟨hobj', ?_⟩
      split at h
      · next s heq =>
        split at h
        · exact absurd h (by simp)
        · next hs =>
          split at h
          · next hnum heqh =>
            split at h
            · exact absurd h (by simp)
            · next hlt =>
              split at h
              · next txs heqt =>
                split at h
                · exact absurd h (by simp)
                · next txs' heqm =>
                  cases Except.ok.inj h
                  exact ⟨heq, hs, heqh, not_lt.mp hlt, txs, heqt⟩
              · exact absurd h (by simp)
          · exact absurd h (by simp)
      · exact absurd h (by simp)
  · unfold validateInputSchema at h
    split at h
    · exact absurd h (by simp)
    · next hobj =>
      have hobj' : v.isObjectLike = true := by simpa using hobj
      refine ⟨hobj', ?_⟩
      split at h
      · next s heq =>
        split at h
        · exact absurd h (by simp)
        · next hs =>
          split at h
          · next q heqq =>
            split at h
            · exact absurd h (by simp)
            · next hlt =>
              cases Except.ok.inj h
              exact ⟨heq, hs, heqq, not_lt.mp hlt⟩
          · exact absurd h (by simp)
      · exact absurd h (by simp)
  · unfold validateInputSchema
    rw [if_neg (by simp [hobj]), hid]
    simp only []
    rw [if_neg hs, hix]
    simp only []
    rw [if_neg (not_lt.mpr hq)]

/-- Witness for the amended C9 at concrete inputs: the characterization
applied to the accepted non-integer-height block and non-integer-index
input, and the converse building a successful input validation. -/
theorem claim_schema_validation_witness :
    (vHalfBlock.isObjectLike = true ∧
      vHalfBlock.get "id" = some (.jstr "b1") ∧ ("b1" : String) ≠ "" ∧
      vHalfBlock.get "height" = some (.jnum (3 / 2)) ∧ (1 : Rat) ≤ 3 / 2 ∧
      ∃ txs, vHalfBlock.get "transactions" = some (.jarr txs)) ∧
    validateInputSchema vHalfInput = .ok ⟨"t", 1 / 2⟩ :=
  ⟨claim_schema_validation.1 vHalfBlock ⟨"b1", 3 / 2, []⟩ (by decide),
   claim_schema_validation.2.2 vHalfInput "t" (1 / 2)
     (by decide) rfl (by decide) rfl (by decide)⟩

/-! ## Atomicity of the observable state machine -/

/-- C8: block admission and rollback mutate the ledger atomically — when
either reports an error (validation errors, and any store error inside
the apply unit, including a failed conditional mark-spent), the
observable committed state equals the state before the operation.  The
apply unit genuinely reaches partial session states that the enclosing
transaction discards: a concrete run writes the block, its transactions
and one spend before the failing second mark-spent, yet the committed
state is unchanged. -/
theorem claim_atomicity :
    (∀ db b e, (submitBlock db b).2 = some e → (submitBlock db b).1 = db) ∧
    (∀ db (t : Int) e, (submitRollback db t).2 = some e → (submitRollback db t).1 = db) ∧
    (∃ (db : DB) (b : Block) (mid : DB) (e : Err), applyBlockRaw db b = (mid, some e) ∧
      mid ≠ db ∧ submitBlock db b = (db, some e) ∧ e.isInternal = true) := by
  refine ⟨fun db b e h => ?_, fun db t e h => ?_,
          ⟨dbG, blockDup, dbDupPartial, Err.internal "Output tx1:0 not found or already spent",
           by decide, by decide, by decide, rfl⟩⟩
  · unfold submitBlock at h ⊢
    rcases hp : processBlock db b with e' | db'
    · rfl
    · rw [hp] at h
      exact absurd h (by simp)
  · unfold submitRollback at h ⊢
    rcases hp : rollback db t with e' | db'
    · rfl
    · rw [hp] at h
      exact absurd h (by simp)

/-- Witness for C8 at concrete inputs: the rejected double-spending
block leaves the genesis state unchanged, and a rejected rollback leaves
the two-block state unchanged. -/
theorem claim_atomicity_witness :
    (submitBlock dbG blockDup).1 = dbG ∧ (submitRollback dbG2 tNeg).1 = dbG2 :=
  ⟨claim_atomicity.1 dbG blockDup
     (Err.internal "Output tx1:0 not found or already spent") (by decide),
   claim_atomicity.2.1 dbG2 tNeg
     (Err.validation "Invalid height parameter" (some "INVALID_HEIGHT")) (by decide)⟩

/-! ## Helper lemmas: spent keys along the apply phase -/

theorem markRow_tx_id (kt : String) (ki : Nat) (τ : String) (j : Nat) (r : OutputRecord) :
    (markRow kt ki τ j r).tx_id = r.tx_id ∧
    (markRow kt ki τ j r).output_index = r.output_index ∧
    (r.spent = true → (markRow kt ki τ j r).spent = true) := by
  unfold markRow
  split <;> simp_all

theorem mark_AS {db db2 : DB} {kt : String} {ki : Nat} {τ : String} {j : Nat}
    (h : markOutputAsSpent db kt ki τ j = (db2, none)) :
    (∀ k, allSpent k db.outputs → allSpent k db2.outputs) ∧
    allSpent (kt, ki) db2.outputs ∧
    ¬ allSpent (kt, ki) db.outputs := by
  have hdb2 := (markOutputAsSpent_ok h).1
  have hout : db2.outputs = db.outputs.map (markRow kt ki τ j) := by rw [hdb2]; rfl
  refine ⟨fun k hAS r' hr' h1 h2 => ?_, fun r' hr' h1 h2 => ?_, fun hAS => ?_⟩
  · rw [hout] at hr'
    rcases List.mem_map.mp hr' with ⟨r, hr, rfl⟩
    have hf := markRow_tx_id kt ki τ j r
    exact hf.2.2 (hAS r hr (hf.1 ▸ h1) (hf.2.1 ▸ h2))
  · rw [hout] at hr'
    rcases List.mem_map.mp hr' with ⟨r, hr, rfl⟩
    have hf := markRow_tx_id kt ki τ j r
    rcases hsp : r.spent with _ | _
    · unfold markRow
      rw [if_pos (by simp [hf.1 ▸ h1, hf.2.1 ▸ h2, hsp])]
    · exact hf.2.2 hsp
  · rcases (markOutputAsSpent_ok h).2 with ⟨r, hr, h1, h2, h3⟩
    rw [hAS r hr h1 h2] at h3
    cases h3

theorem createOutput_AS {db db2 : DB} {τ : String} {j : Nat} {o : Output}
    (h : createOutput db τ j o = (db2, none)) :
    ∀ k : String × Nat, k.1 ≠ τ → allSpent k db.outputs → allSpent k db2.outputs := by
  intro k hne hAS r hr h1 h2
  rw [createOutput_ok h] at hr
  simp only [] at hr
  rcases List.mem_append.mp hr with hm | hm
  · exact hAS r hm h1 h2
  · rcases List.mem_singleton.mp hm with rfl
    exact absurd h1.symm hne

theorem spendInputs_AS {τ : String} :
    ∀ (l : List Input) (db : DB) (i : Nat) {db' : DB},
      spendInputs τ db l i = (db', none) →
      (∀ k, allSpent k db.outputs → allSpent k db'.outputs) ∧
      (l.map inputKey).Nodup ∧
      (∀ inp ∈ l, ¬ allSpent (inputKey inp) db.outputs) ∧
      (∀ inp ∈ l, allSpent (inputKey inp) db'.outputs) := by
  intro l
  induction l with
  | nil =>
    intro db i db' h
    cases (Prod.mk.inj h).1
    exact ⟨fun k hk => hk, List.nodup_nil, fun inp hm => absurd hm (List.not_mem_nil inp),
           fun inp hm => absurd hm (List.not_mem_nil inp)⟩
  | cons inp0 rest ih =>
    intro db i db' h
    unfold spendInputs at h
    rcases hm : markOutputAsSpent db inp0.txId inp0.index τ i with ⟨db1, e⟩
    rw [hm] at h
    cases e with
    | some err => exact absurd (Prod.mk.inj h).2 (by simp)
    | none =>
      have hma := mark_AS hm
      rcases ih db1 (i + 1) h with ⟨hmono, hnd, hnot, hyes⟩
      have hAS1 : allSpent (inputKey inp0) db1.outputs := hma.2.1
      refine ⟨fun k hk => hmono k (hma.1 k hk), ?_, ?_, ?_⟩
      · rw [List.map_cons]
        apply List.Nodup.cons
        · intro hmem
          rcases List.mem_map.mp hmem with ⟨inp1, hinp1, hkey⟩
          exact hnot inp1 hinp1 (hkey ▸ hAS1)
        · exact hnd
      · intro inp hmem
        rcases List.mem_cons.mp hmem with rfl | hmem'
        · exact hma.2.2
        · exact fun hc => hnot inp hmem' (hma.1 _ hc)
      · intro inp hmem
        rcases List.mem_cons.mp hmem with rfl | hmem'
        · exact hmono _ hAS1
        · exact hyes inp hmem'

theorem createOutputs_AS {τ : String} :
    ∀ (l : List Output) (db : DB) (i : Nat) {db' : DB},
      createOutputs τ db l i = (db', none) →
      ∀ k : String × Nat, k.1 ≠ τ → allSpent k db.outputs → allSpent k db'.outputs := by
  intro l
  induction l with
  | nil =>
    intro db i db' h
    cases (Prod.mk.inj h).1
    exact fun k _ hk => hk
  | cons o rest ih =>
    intro db i db' h
    unfold createOutputs at h
    rcases hc : createOutput db τ i o with ⟨db1, e⟩
    rw [hc] at h
    cases e with
    | some err => exact absurd (Prod.mk.inj h).2 (by simp)
    | none =>
      intro k hne hk
      exact ih db1 (i + 1) h k hne (createOutput_AS hc k hne hk)

theorem processTransaction_AS {db db' : DB} {tx : Transaction} {bId : String}
    (h : processTransaction db tx bId = (db', none)) :
    tx.id ∉ db.transactions.map TxRow.id ∧
    db'.transactions = db.transactions ++ [⟨tx.id, bId⟩] ∧
    db'.blocks = db.blocks ∧
    (tx.inputs.map inputKey).Nodup ∧
    (∀ inp ∈ tx.inputs, ¬ allSpent (inputKey inp) db.outputs) ∧
    (∀ k : String × Nat, k.1 ∈ db.transactions.map TxRow.id →
      allSpent k db.outputs → allSpent k db'.outputs) ∧
    (∀ inp ∈ tx.inputs, inp.txId ∈ db.transactions.map TxRow.id →
      allSpent (inputKey inp) db'.outputs) := by
  unfold processTransaction at h
  rcases hc : createTransaction db tx.id bId with ⟨db1, e1⟩
  rw [hc] at h
  cases e1 with
  | some err => exact absurd (Prod.mk.inj h).2 (by simp)
  | none =>
    simp only [] at h
    rcases hs : spendInputs tx.id db1 tx.inputs 0 with ⟨db2, e2⟩
    rw [hs] at h
    cases e2 with
    | some err => exact absurd (Prod.mk.inj h).2 (by simp)
    | none =>
      simp only [] at h
      rcases createTransaction_ok hc with ⟨hdb1, hfresh⟩
      have hout1 : db1.outputs = db.outputs := by rw [hdb1]
      have htr1 : db1.transactions = db.transactions ++ [⟨tx.id, bId⟩] := by rw [hdb1]
      have hbl1 : db1.blocks = db.blocks := by rw [hdb1]
      rcases spendInputs_AS tx.inputs db1 0 hs with ⟨hmono2, hnd, hnot, hyes⟩
      have hsp2 := spendInputs_fst_tables tx.id tx.inputs db1 0
      rw [hs] at hsp2
      simp only [] at hsp2
      have hco3 := createOutputs_fst_tables tx.id tx.outputs db2 0
      rw [h] at hco3
      refine ⟨hfresh, ?_, ?_, hnd, ?_, ?_, ?_⟩
      · rw [hco3.2, hsp2.2, htr1]
      · rw [hco3.1, hsp2.1, hbl1]
      · intro inp hmem
        rw [← hout1]
        exact hnot inp hmem
      · intro k hkT hAS
        have h1 : allSpent k db2.outputs := hmono2 k (hout1 ▸ hAS)
        refine createOutputs_AS tx.outputs db2 0 h k ?_ h1
        intro hceq
        exact hfresh (hceq ▸ hkT)
      · intro inp hmem hkT
        have h1 : allSpent (inputKey inp) db2.outputs := hyes inp hmem
        refine createOutputs_AS tx.outputs db2 0 h (inputKey inp) ?_ h1
        intro hceq
        exact hfresh (hceq ▸ hkT)

theorem applyTransactions_AS {bId : String} :
    ∀ (txs : List Transaction) (db : DB) {db' : DB},
      applyTransactions bId db txs = (db', none) →
      (∀ inp ∈ txs.flatMap Transaction.inputs,
        inp.txId ∈ db.transactions.map TxRow.id) →
      ((txs.flatMap Transaction.inputs).map inputKey).Nodup ∧
      (∀ t ∈ txs, t.id ∉ db.transactions.map TxRow.id) ∧
      db'.transactions = db.transactions ++ txs.map (fun t => ⟨t.id, bId⟩) ∧
      (∀ inp ∈ txs.flatMap Transaction.inputs, ¬ allSpent (inputKey inp) db.outputs) ∧
      (∀ k : String × Nat, k.1 ∈ db.transactions.map TxRow.id →
        allSpent k db.outputs → allSpent k db'.outputs) ∧
      (∀ inp ∈ txs.flatMap Transaction.inputs, allSpent (inputKey inp) db'.outputs) := by
  intro txs
  induction txs with
  | nil =>
    intro db db' h _
    cases (Prod.mk.inj h).1
    refine ⟨by simp, by simp, by simp, by simp, fun k _ hk => hk, by simp⟩
  | cons tx rest ih =>
    intro db db' h hkeys
    unfold applyTransactions at h
    rcases hp : processTransaction db tx bId with ⟨db1, e⟩
    rw [hp] at h
    cases e with
    | some err => exact absurd (Prod.mk.inj h).2 (by simp)
    | none =>
      rcases processTransaction_AS hp with ⟨hfresh, htr1, _, hnd1, hnot1, hmono1, hyes1⟩
      have hkeys_tx : ∀ inp ∈ tx.inputs, inp.txId ∈ db.transactions.map TxRow.id := by
        intro inp hm
        exact hkeys inp (by rw [List.flatMap_cons]; exact List.mem_append.mpr (Or.inl hm))
      have hkeys_rest : ∀ inp ∈ rest.flatMap Transaction.inputs,
          inp.txId ∈ db1.transactions.map TxRow.id := by
        intro inp hm
        have := hkeys inp (by rw [List.flatMap_cons]; exact List.mem_append.mpr (Or.inr hm))
        rw [htr1, List.map_append]
        exact List.mem_append.mpr (Or.inl this)
      have hkeys_rest0 : ∀ inp ∈ rest.flatMap Transaction.inputs,
          inp.txId ∈ db.transactions.map TxRow.id := fun inp hm =>
        hkeys inp (by rw [List.flatMap_cons]; exact List.mem_append.mpr (Or.inr hm))
      rcases ih db1 h hkeys_rest with ⟨hndR, hfreshR, htrR, hnotR, hmonoR, hyesR⟩
      have hsub : ∀ x, x ∈ db.transactions.map TxRow.id → x ∈ db1.transactions.map TxRow.id := by
        intro x hx
        rw [htr1, List.map_append]
        exact List.mem_append.mpr (Or.inl hx)
      refine ⟨?_, ?_, ?_, ?_, ?_, ?_⟩
      · rw [List.flatMap_cons, List.map_append]
        rw [List.nodup_append]
        refine ⟨hnd1, hndR, ?_⟩
        intro a ha hb
        rcases List.mem_map.mp ha with ⟨inp1, hinp1, rfl⟩
        rcases List.mem_map.mp hb with ⟨inp2, hinp2, hkeq⟩
        have hAS1 : allSpent (inputKey inp1) db1.outputs := hyes1 inp1 hinp1 (hkeys_tx inp1 hinp1)
        exact hnotR inp2 hinp2 (hkeq ▸ hAS1)
      · intro t hm
        rcases List.mem_cons.mp hm with rfl | hm'
        · exact hfresh
        · intro hc
          exact hfreshR t hm' (hsub _ hc)
      · rw [htrR, htr1, List.map_cons, List.append_assoc]
        rfl
      · intro inp hm
        rw [List.flatMap_cons] at hm
        rcases List.mem_append.mp hm with hm' | hm'
        · exact hnot1 inp hm'
        · intro hc
          exact hnotR inp hm' (hmono1 _ (hkeys_rest0 inp hm') hc)
      · intro k hkT hAS
        exact hmonoR k (hsub _ hkT) (hmono1 k hkT hAS)
      · intro inp hm
        rw [List.flatMap_cons] at hm
        rcases List.mem_append.mp hm with hm' | hm'
        · exact hmonoR _ (hsub _ (hkeys_tx inp hm')) (hyes1 inp hm' (hkeys_tx inp hm'))
        · exact hyesR inp hm'

theorem vtb_ok_scan {db : DB} {b : Block}
    (h : validateTransactionBalances db b = .ok ()) :
    ∃ p, scanTransactions db b.transactions 0 0 = .ok p := by
  unfold validateTransactionBalances at h
  rcases hs : scanTransactions db b.transactions 0 0 with e | p
  · rw [hs] at h
    exact absurd h (by simp)
  · exact ⟨p, rfl⟩

/-- C10: a block containing two inputs that reference the same
`(txId, index)` of an output unspent at submission time passes semantic
validation (each input is checked against the pre-block snapshot, so
neither the referential nor the conflict error is raised — any
validation failure is a conservation error); the failure surfaces during
the apply phase as a generic internal error when the second conditional
mark-spent matches zero rows, the whole block is aborted, and the
committed state is unchanged. -/
theorem claim_duplicate_reference :
    (∀ db b,
      (∀ inp ∈ flatInputs b, ∃ o, getOutput db inp.txId inp.index = some o ∧ o.spent = false) →
      ∀ e, validateTransactionBalances db b = .error e →
        ∃ m, e = Err.validation m (some "VALUE_MISMATCH")) ∧
    (∀ db b, WF db → validateBlock db b = .ok () → ¬ (inputKeys b).Nodup →
      ∃ m, processBlock db b = .error (Err.internal m) ∧
        submitBlock db b = (db, some (Err.internal m))) := by
  constructor
  · intro db b hrefs e he
    have hnone : firstBadInput db b = none := by
      unfold firstBadInput
      rw [List.find?_eq_none]
      intro inp hm
      rcases hrefs inp hm with ⟨o, hg, hsp⟩
      simp [isBadInput, hg, hsp]
    rcases (scanTransactions_of_first_bad b.transactions 0 0).2 hnone with ⟨p, hp⟩
    unfold validateTransactionBalances at he
    rw [hp] at he
    rcases p with ⟨tin, tout⟩
    simp only [] at he
    split at he
    · exact ⟨_, (Except.error.inj he).symm⟩
    · exact absurd he (by simp)
  · intro db b hwf hval hdup
    -- the block's input references exist in the committed state,
    -- so their transaction ids are stored transaction ids
    have hscan := vtb_ok_scan (validateBlock_ok_iff.mp hval).2.2
    rcases hscan with ⟨⟨tin, tout⟩, hscan⟩
    have hrefs := scanTransactions_ok_refs hscan
    have hkeys : ∀ inp ∈ flatInputs b, inp.txId ∈ db.transactions.map TxRow.id := by
      intro inp hm
      rcases hrefs inp hm with ⟨o, hg, _⟩
      have hmem : o ∈ db.outputs := List.mem_of_find?_eq_some hg
      have hpred := List.find?_some hg
      simp only [Bool.and_eq_true, beq_iff_eq] at hpred
      rw [← hpred.1]
      exact hwf.2.2.2 o hmem
    -- the apply phase cannot succeed: success would make the flattened
    -- input keys nodup
    rcases happly : applyBlockRaw db b with ⟨mid, e⟩
    cases e with
    | none =>
      exfalso
      unfold applyBlockRaw at happly
      rcases hcb : createBlock db b with ⟨db1, e1⟩
      rw [hcb] at happly
      cases e1 with
      | some err => exact absurd (Prod.mk.inj happly).2 (by simp)
      | none =>
        have hdb1 := (createBlock_ok hcb).1
        have htr1 : db1.transactions = db.transactions := by rw [hdb1]
        have hnd := (applyTransactions_AS b.transactions db1 happly
          (fun inp hm => htr1 ▸ hkeys inp hm)).1
        exact hdup hnd
    | some err =>
      have hint := applyBlockRaw_error_internal happly
      rcases herr : err with m1 | m1 | m
      · rw [herr] at hint; exact absurd hint (by simp [Err.isInternal])
      · rw [herr] at hint; exact absurd hint (by simp [Err.isInternal])
      · refine ⟨m, ?_, ?_⟩
        · unfold processBlock
          rw [hval, happly, herr]
        · unfold submitBlock processBlock
          rw [hval, happly, herr]

/-! ## Helper lemmas: rollback as the inverse of apply -/

theorem clearSpenders_of_none {S : List String} {r : OutputRecord}
    (h : r.spent_by_tx = none) : clearSpenders S r = r := by
  unfold clearSpenders
  rw [h]

theorem clearSpenders_of_not_mem {S : List String} {r : OutputRecord}
    (h : ∀ τ ∈ S, r.spent_by_tx ≠ some τ) : clearSpenders S r = r := by
  unfold clearSpenders
  rcases hsp : r.spent_by_tx with _ | σ
  · rfl
  · simp only []
    rw [if_neg]
    intro hmem
    exact h σ hmem hsp

theorem undoOutputs_base {S : List String} {outs : List OutputRecord}
    (h1 : ∀ r ∈ outs, ∀ τ ∈ S, r.spent_by_tx ≠ some τ)
    (h2 : ∀ r ∈ outs, r.tx_id ∉ S) :
    undoOutputs S outs = outs := by
  unfold undoOutputs
  have hmap : outs.map (clearSpenders S) = outs := by
    have := List.map_congr_left (l := outs) (f := clearSpenders S) (g := id)
      (fun r hr => clearSpenders_of_not_mem (h1 r hr))
    simpa using this
  rw [hmap]
  apply List.filter_eq_self.mpr
  intro r hr
  simp [h2 r hr]

theorem mark_clear_map {db db2 : DB} {kt : String} {ki : Nat} {τ : String} {j : Nat}
    {S : List String}
    (h : markOutputAsSpent db kt ki τ j = (db2, none)) (hτ : τ ∈ S)
    (hcl : cleanUnspent db.outputs) :
    db2.outputs.map (clearSpenders S) = db.outputs.map (clearSpenders S) ∧
    cleanUnspent db2.outputs := by
  have hout : db2.outputs = db.outputs.map (markRow kt ki τ j) := by
    rw [(markOutputAsSpent_ok h).1]; rfl
  constructor
  · rw [hout, List.map_map]
    apply List.map_congr_left
    intro r hr
    show clearSpenders S (markRow kt ki τ j r) = clearSpenders S r
    unfold markRow
    split
    · next hcond =>
      simp only [Bool.and_eq_true, beq_iff_eq, Bool.not_eq_true'] at hcond
      rcases hcl r hr hcond.2 with ⟨hn, hni⟩
      rw [clearSpenders_of_none hn]
      unfold clearSpenders
      simp only []
      rw [if_pos hτ]
      cases r
      simp_all
    · rfl
  · intro r' hr' hsp'
    rw [hout] at hr'
    rcases List.mem_map.mp hr' with ⟨r, hr, rfl⟩
    unfold markRow at hsp' ⊢
    split at hsp'
    · cases hsp'
    · next hcond =>
      rw [if_neg hcond]
      exact hcl r hr hsp'

theorem createOutput_undo {db db2 : DB} {τ : String} {j : Nat} {o : Output}
    {S : List String}
    (h : createOutput db τ j o = (db2, none)) (hτ : τ ∈ S)
    (hcl : cleanUnspent db.outputs) :
    undoOutputs S db2.outputs = undoOutputs S db.outputs ∧
    cleanUnspent db2.outputs := by
  have hout : db2.outputs = db.outputs ++ [⟨τ, j, o.address, o.value, false, none, none⟩] := by
    rw [createOutput_ok h]
  constructor
  · rw [hout]
    unfold undoOutputs
    rw [List.map_append, List.filter_append]
    have : ([(⟨τ, j, o.address, o.value, false, none, none⟩ : OutputRecord)].map
        (clearSpenders S)).filter (fun o => !S.contains o.tx_id) = [] := by
      rw [List.map_singleton, clearSpenders_of_none rfl]
      simp [hτ]
    rw [this, List.append_nil]
  · intro r' hr' hsp'
    rw [hout] at hr'
    rcases List.mem_append.mp hr' with hm | hm
    · exact hcl r' hm hsp'
    · rcases List.mem_singleton.mp hm with rfl
      exact ⟨rfl, rfl⟩

theorem spendInputs_undo {τ : String} {S : List String} (hτ : τ ∈ S) :
    ∀ (l : List Input) (db : DB) (i : Nat) {db' : DB},
      spendInputs τ db l i = (db', none) →
      cleanUnspent db.outputs →
      db'.outputs.map (clearSpenders S) = db.outputs.map (clearSpenders S) ∧
      cleanUnspent db'.outputs := by
  intro l
  induction l with
  | nil =>
    intro db i db' h hcl
    cases (Prod.mk.inj h).1
    exact ⟨rfl, hcl⟩
  | cons inp0 rest ih =>
    intro db i db' h hcl
    unfold spendInputs at h
    rcases hm : markOutputAsSpent db inp0.txId inp0.index τ i with ⟨db1, e⟩
    rw [hm] at h
    cases e with
    | some err => exact absurd (Prod.mk.inj h).2 (by simp)
    | none =>
      rcases mark_clear_map hm hτ hcl with ⟨hmap1, hcl1⟩
      rcases ih db1 (i + 1) h hcl1 with ⟨hmap2, hcl2⟩
      exact ⟨hmap2.trans hmap1, hcl2⟩

theorem createOutputs_undo {τ : String} {S : List String} (hτ : τ ∈ S) :
    ∀ (l : List Output) (db : DB) (i : Nat) {db' : DB},
      createOutputs τ db l i = (db', none) →
      cleanUnspent db.outputs →
      undoOutputs S db'.outputs = undoOutputs S db.outputs ∧
      cleanUnspent db'.outputs := by
  intro l
  induction l with
  | nil =>
    intro db i db' h hcl
    cases (Prod.mk.inj h).1
    exact ⟨rfl, hcl⟩
  | cons o rest ih =>
    intro db i db' h hcl
    unfold createOutputs at h
    rcases hc : createOutput db τ i o with ⟨db1, e⟩
    rw [hc] at h
    cases e with
    | some err => exact absurd (Prod.mk.inj h).2 (by simp)
    | none =>
      rcases createOutput_undo hc hτ hcl with ⟨hu1, hcl1⟩
      rcases ih db1 (i + 1) h hcl1 with ⟨hu2, hcl2⟩
      exact ⟨hu2.trans hu1, hcl2⟩

theorem processTransaction_undo {db db' : DB} {tx : Transaction} {bId : String}
    {S : List String}
    (h : processTransaction db tx bId = (db', none)) (hτ : tx.id ∈ S)
    (hcl : cleanUnspent db.outputs) :
    undoOutputs S db'.outputs = undoOutputs S db.outputs ∧
    cleanUnspent db'.outputs := by
  unfold processTransaction at h
  rcases hc : createTransaction db tx.id bId with ⟨db1, e1⟩
  rw [hc] at h
  cases e1 with
  | some err => exact absurd (Prod.mk.inj h).2 (by simp)
  | none =>
    simp only [] at h
    rcases hs : spendInputs tx.id db1 tx.inputs 0 with ⟨db2, e2⟩
    rw [hs] at h
    cases e2 with
    | some err => exact absurd (Prod.mk.inj h).2 (by simp)
    | none =>
      simp only [] at h
      have hout1 : db1.outputs = db.outputs := by rw [(createTransaction_ok hc).1]
      rcases spendInputs_undo hτ tx.inputs db1 0 hs (hout1 ▸ hcl) with ⟨hmap2, hcl2⟩
      rcases createOutputs_undo hτ tx.outputs db2 0 h hcl2 with ⟨hu3, hcl3⟩
      refine ⟨?_, hcl3⟩
      rw [hu3]
      unfold undoOutputs
      rw [hmap2, hout1]

theorem applyTransactions_undo {bId : String} {S : List String} :
    ∀ (txs : List Transaction) (db : DB) {db' : DB},
      applyTransactions bId db txs = (db', none) →
      (∀ t ∈ txs, t.id ∈ S) →
      cleanUnspent db.outputs →
      undoOutputs S db'.outputs = undoOutputs S db.outputs ∧
      cleanUnspent db'.outputs := by
  intro txs
  induction txs with
  | nil =>
    intro db db' h _ hcl
    cases (Prod.mk.inj h).1
    exact ⟨rfl, hcl⟩
  | cons tx rest ih =>
    intro db db' h hS hcl
    unfold applyTransactions at h
    rcases hp : processTransaction db tx bId with ⟨db1, e⟩
    rw [hp] at h
    cases e with
    | some err => exact absurd (Prod.mk.inj h).2 (by simp)
    | none =>
      rcases processTransaction_undo hp (hS tx (List.mem_cons_self tx rest)) hcl
        with ⟨hu1, hcl1⟩
      rcases ih db1 h (fun t ht => hS t (List.mem_cons_of_mem tx ht)) hcl1 with ⟨hu2, hcl2⟩
      exact ⟨hu2.trans hu1, hcl2⟩

theorem foldl_unspend_outputs :
    ∀ (rows : List TxRow) (d : DB),
      (rows.foldl (fun a t => unspendOutputsByTransaction a t.id) d).outputs =
        d.outputs.map (fun r => rows.foldl (fun r t => unspendRow t.id r) r) := by
  intro rows
  induction rows with
  | nil => intro d; simp
  | cons t rest ih =>
    intro d
    rw [List.foldl_cons, ih]
    have : (unspendOutputsByTransaction d t.id).outputs = d.outputs.map (unspendRow t.id) := rfl
    rw [this, List.map_map]
    apply List.map_congr_left
    intro r _
    rfl

theorem foldl_unspendRow_eq_clear :
    ∀ (τs : List String) (r : OutputRecord),
      τs.foldl (fun r τ => unspendRow τ r) r = clearSpenders τs r := by
  intro τs
  induction τs with
  | nil =>
    intro r
    rw [List.foldl_nil, clearSpenders_of_not_mem]
    intro τ hτ
    cases hτ
  | cons τ0 τs ih =>
    intro r
    rw [List.foldl_cons]
    rcases hsp : r.spent_by_tx with _ | σ
    · have h1 : unspendRow τ0 r = r := by
        unfold unspendRow
        rw [if_neg (by simp [hsp])]
      rw [h1, ih, clearSpenders_of_none hsp, clearSpenders_of_none hsp]
    · by_cases heq : σ = τ0
      · subst heq
        have h1 : unspendRow σ r =
            { r with spent := false, spent_by_tx := none, spent_by_index := none } := by
          unfold unspendRow
          rw [if_pos (by simp [hsp])]
        rw [h1, ih, clearSpenders_of_none rfl]
        unfold clearSpenders
        rw [hsp]
        simp only []
        rw [if_pos (List.mem_cons_self σ τs)]
      · have h1 : unspendRow τ0 r = r := by
          unfold unspendRow
          rw [if_neg (by simp [hsp, heq])]
        rw [h1, ih]
        unfold clearSpenders
        rw [hsp]
        simp only []
        by_cases hm : σ ∈ τs
        · rw [if_pos hm, if_pos (List.mem_cons_of_mem τ0 hm)]
        · rw [if_neg hm, if_neg (by simp [heq, hm])]

theorem rollbackApply_inverse {db db' : DB} {b : Block}
    (hblocks' : db'.blocks = db.blocks ++ [⟨b.id, b.height⟩])
    (hh : b.height = getCurrentHeight db + 1)
    (hfreshB : ∀ r ∈ db.blocks, r.id ≠ b.id)
    (htrA : db'.transactions = db.transactions ++
      b.transactions.map (fun t => ⟨t.id, b.id⟩))
    (htxFK : ∀ t ∈ db.transactions, ∃ blk ∈ db.blocks, blk.id = t.block_id)
    (houts : undoOutputs (b.transactions.map Transaction.id) db'.outputs = db.outputs) :
    rollbackApply db' (getCurrentHeight db) = db := by
  have hfil : db.blocks.filter (fun r => decide (getCurrentHeight db < r.height)) = [] := by
    apply List.filter_eq_nil_iff.mpr
    intro r hr
    simp only [decide_eq_true_eq]
    exact not_lt.mpr (height_le_current hr)
  have hfilrow : [(⟨b.id, b.height⟩ : BlockRow)].filter
      (fun r => decide (getCurrentHeight db < r.height)) = [⟨b.id, b.height⟩] := by
    apply List.filter_cons_of_pos
    simp only [decide_eq_true_eq]
    rw [hh]
    exact Nat.lt_succ_self _
  have hBlocksAbove : getBlocksAboveHeight db' (getCurrentHeight db) = [⟨b.id, b.height⟩] := by
    unfold getBlocksAboveHeight
    rw [hblocks', List.filter_append, hfil, hfilrow]
    rfl
  have hTxsOf : getTransactionsByBlockId db' b.id =
      b.transactions.map (fun t => ⟨t.id, b.id⟩) := by
    unfold getTransactionsByBlockId
    rw [htrA, List.filter_append]
    have h1 : db.transactions.filter (fun r => r.block_id == b.id) = [] := by
      apply List.filter_eq_nil_iff.mpr
      intro t ht
      rcases htxFK t ht with ⟨blk, hblk, hbid⟩
      simp only [beq_iff_eq]
      rw [← hbid]
      exact fun hc => hfreshB blk hblk hc
    have h2 : (b.transactions.map (fun t => (⟨t.id, b.id⟩ : TxRow))).filter
        (fun r => r.block_id == b.id) = b.transactions.map (fun t => ⟨t.id, b.id⟩) := by
      apply List.filter_eq_self.mpr
      intro r hr
      rcases List.mem_map.mp hr with ⟨t, _, rfl⟩
      simp
    rw [h1, h2, List.nil_append]
  have hd1 : rollbackApply db' (getCurrentHeight db) =
      deleteBlocksAboveHeight
        ((b.transactions.map (fun t => (⟨t.id, b.id⟩ : TxRow))).foldl
          (fun a t => unspendOutputsByTransaction a t.id) db')
        (getCurrentHeight db) := by
    simp only [rollbackApply]
    rw [hBlocksAbove]
    rw [List.foldl_cons, List.foldl_nil, hTxsOf]
  rw [hd1]
  -- the unspend fold leaves the tables alone and clears the block's
  -- spender references in the outputs
  have htab := foldl_unspendTx_tables (b.transactions.map (fun t => ⟨t.id, b.id⟩)) db'
  have hout1 : ((b.transactions.map (fun t => (⟨t.id, b.id⟩ : TxRow))).foldl
      (fun a t => unspendOutputsByTransaction a t.id) db').outputs =
      db'.outputs.map (clearSpenders (b.transactions.map Transaction.id)) := by
    rw [foldl_unspend_outputs]
    apply List.map_congr_left
    intro r _
    rw [List.foldl_map, ← foldl_unspendRow_eq_clear, List.foldl_map]
  -- now compute the cascading delete
  unfold deleteBlocksAboveHeight
  have hdead : (((b.transactions.map (fun t => (⟨t.id, b.id⟩ : TxRow))).foldl
      (fun a t => unspendOutputsByTransaction a t.id) db').blocks.filter
        (fun r => decide (getCurrentHeight db < r.height))).map (fun r => r.id) = [b.id] := by
    rw [htab.1, hblocks', List.filter_append, hfil, hfilrow]
    rfl
  have hkept : ((b.transactions.map (fun t => (⟨t.id, b.id⟩ : TxRow))).foldl
      (fun a t => unspendOutputsByTransaction a t.id) db').blocks.filter
        (fun r => !decide (getCurrentHeight db < r.height)) = db.blocks := by
    rw [htab.1, hblocks', List.filter_append]
    have h1 : db.blocks.filter (fun r => !decide (getCurrentHeight db < r.height)) =
        db.blocks := by
      apply List.filter_eq_self.mpr
      intro r hr
      simp only [Bool.not_eq_true', decide_eq_false_iff_not]
      exact not_lt.mpr (height_le_current hr)
    have h2 : [(⟨b.id, b.height⟩ : BlockRow)].filter
        (fun r => !decide (getCurrentHeight db < r.height)) = [] := by
      apply List.filter_eq_nil_iff.mpr
      intro r hr
      rcases List.mem_singleton.mp hr with rfl
      simp only [Bool.not_eq_true', decide_eq_false_iff_not, not_not]
      rw [hh]
      exact Nat.lt_succ_self _
    rw [h1, h2, List.append_nil]
  rw [hdead, hkept, htab.2, htrA, hout1]
  have hdeadTx : ((db.transactions ++ b.transactions.map (fun t => (⟨t.id, b.id⟩ : TxRow))).filter
      (fun t => [b.id].contains t.block_id)).map (fun t => t.id) =
      b.transactions.map Transaction.id := by
    rw [List.filter_append]
    have h1 : db.transactions.filter (fun t => [b.id].contains t.block_id) = [] := by
      apply List.filter_eq_nil_iff.mpr
      intro t ht
      rcases htxFK t ht with ⟨blk, hblk, hbid⟩
      have : t.block_id ≠ b.id := by
        rw [← hbid]
        exact fun hc => hfreshB blk hblk hc
      simp [this]
    have h2 : (b.transactions.map (fun t => (⟨t.id, b.id⟩ : TxRow))).filter
        (fun t => [b.id].contains t.block_id) =
        b.transactions.map (fun t => ⟨t.id, b.id⟩) := by
      apply List.filter_eq_self.mpr
      intro r hr
      rcases List.mem_map.mp hr with ⟨t, _, rfl⟩
      simp
    rw [h1, h2, List.nil_append, List.map_map]
    rfl
  have hkeptTx : (db.transactions ++ b.transactions.map (fun t => (⟨t.id, b.id⟩ : TxRow))).filter
      (fun t => !([b.id].contains t.block_id)) = db.transactions := by
    rw [List.filter_append]
    have h1 : db.transactions.filter (fun t => !([b.id].contains t.block_id)) =
        db.transactions := by
      apply List.filter_eq_self.mpr
      intro t ht
      rcases htxFK t ht with ⟨blk, hblk, hbid⟩
      have : t.block_id ≠ b.id := by
        rw [← hbid]
        exact fun hc => hfreshB blk hblk hc
      simp [this]
    have h2 : (b.transactions.map (fun t => (⟨t.id, b.id⟩ : TxRow))).filter
        (fun t => !([b.id].contains t.block_id)) = [] := by
      apply List.filter_eq_nil_iff.mpr
      intro r hr
      rcases List.mem_map.mp hr with ⟨t, _, rfl⟩
      simp
    rw [h1, h2, List.append_nil]
  simp only []
  rw [hdeadTx, hkeptTx]
  have hfinalOut : (db'.outputs.map (clearSpenders (b.transactions.map Transaction.id))).filter
      (fun o => !(b.transactions.map Transaction.id).contains o.tx_id) = db.outputs := houts
  rw [hfinalOut]

/-- C5: applying an admissible block `B` and then rolling back to
`B.height − 1` restores the exact previous state (in particular the
unspent-output set): every output created by `B`'s transactions is
deleted by the cascade, and every output spent by them is restored to
unspent with its spender reference cleared. -/
theorem claim_rollback_roundtrip :
    ∀ (db : DB) (b : Block) (db' : DB), WF db → processBlock db b = .ok db' →
      rollback db' ((b.height : Int) - 1) = .ok db := by
  intro db b db' hwf hok
  obtain ⟨hval, happly⟩ := processBlock_ok_elim hok
  obtain ⟨hh, hid, hvtb⟩ := validateBlock_ok_iff.mp hval
  rcases vtb_ok_scan hvtb with ⟨⟨tin, tout⟩, hscan⟩
  have hrefs := scanTransactions_ok_refs hscan
  have hkeys : ∀ inp ∈ flatInputs b, inp.txId ∈ db.transactions.map TxRow.id := by
    intro inp hm
    rcases hrefs inp hm with ⟨o, hg, _⟩
    have hmem : o ∈ db.outputs := List.mem_of_find?_eq_some hg
    have hpred := List.find?_some hg
    simp only [Bool.and_eq_true, beq_iff_eq] at hpred
    rw [← hpred.1]
    exact hwf.2.2.2 o hmem
  unfold applyBlockRaw at happly
  rcases hcb : createBlock db b with ⟨db1, e1⟩
  rw [hcb] at happly
  cases e1 with
  | some err => exact absurd (Prod.mk.inj happly).2 (by simp)
  | none =>
    simp only [] at happly
    obtain ⟨hdb1, hfreshHB⟩ := createBlock_ok hcb
    have htr1 : db1.transactions = db.transactions := by rw [hdb1]
    have hout1 : db1.outputs = db.outputs := by rw [hdb1]
    have hAS := applyTransactions_AS b.transactions db1 happly
      (fun inp hm => htr1 ▸ hkeys inp hm)
    have hfreshS : ∀ x ∈ b.transactions.map Transaction.id,
        x ∉ db.transactions.map TxRow.id := by
      intro x hx
      rcases List.mem_map.mp hx with ⟨t, ht, rfl⟩
      exact htr1 ▸ hAS.2.1 t ht
    have hundo := applyTransactions_undo b.transactions db1 happly
      (fun t ht => List.mem_map_of_mem Transaction.id ht)
      (by rw [hout1]; exact hwf.1)
    have hbase : undoOutputs (b.transactions.map Transaction.id) db.outputs = db.outputs := by
      apply undoOutputs_base
      · intro r hr τ hτ heq
        exact hfreshS τ hτ (hwf.2.2.1 r hr τ heq)
      · intro r hr hmem
        exact hfreshS r.tx_id hmem (hwf.2.2.2 r hr)
    have houts : undoOutputs (b.transactions.map Transaction.id) db'.outputs = db.outputs := by
      rw [hundo.1, hout1, hbase]
    have hcur' := (processBlock_ok_height hok).2
    have happ_inv := rollbackApply_inverse (processBlock_ok_blocks hok) hh
      (fun r hr => (hfreshHB r hr).1)
      (htr1 ▸ hAS.2.2.1) hwf.2.1 houts
    have hb1 : 1 ≤ b.height := by rw [hh]; omega
    have g1 : ¬((b.height : Int) - 1 < 0) := by omega
    have g2 : ¬((getCurrentHeight db' : Int) < (b.height : Int) - 1) := by
      rw [hcur', hh]
      push_cast
      omega
    have g3 : ¬((maxRollbackBlocks : Int) <
        (getCurrentHeight db' : Int) - ((b.height : Int) - 1)) := by
      rw [hcur', hh]
      simp only [maxRollbackBlocks]
      push_cast
      omega
    have htn : ((b.height : Int) - 1).toNat = getCurrentHeight db := by
      rw [hh]
      omega
    simp only [rollback]
    rw [if_neg g1, if_neg g2, if_neg g3, htn, happ_inv]

/-- Witness for C5 at concrete inputs: applying block 2 to the genesis
state and rolling back to height 1 restores the genesis state exactly. -/
theorem claim_rollback_roundtrip_witness :
    rollback dbG2 ((blockB2.height : Int) - 1) = .ok dbG :=
  claim_rollback_roundtrip dbG blockB2 dbG2 (by decide) (by decide)

/-- Witness for C10 at concrete inputs: a valid-reference block is only
ever rejected with the conservation error, and the block spending
`tx1:0` twice passes validation, fails during apply with the internal
error, and leaves the committed state unchanged. -/
theorem claim_duplicate_reference_witness :
    (∃ m, (Err.validation
      (s!"Input/Output value mismatch. Inputs: {mismatchIns}, Outputs: {mismatchOuts}")
      (some "VALUE_MISMATCH")) = Err.validation m (some "VALUE_MISMATCH")) ∧
    (∃ m, processBlock dbG blockDup = .error (Err.internal m) ∧
      submitBlock dbG blockDup = (dbG, some (Err.internal m))) :=
  ⟨claim_duplicate_reference.1 dbG blockBadVal
    (fun inp hm => by
      have hinp : inp = ⟨"tx1", 0⟩ := by
        have hf : flatInputs blockBadVal = [⟨"tx1", 0⟩] := rfl
        rw [hf] at hm
        simpa using hm
      subst hinp
      exact ⟨⟨"tx1", 0, "addr1", 100, false, none, none⟩, by decide, rfl⟩)
    (Err.validation
      (s!"Input/Output value mismatch. Inputs: {mismatchIns}, Outputs: {mismatchOuts}")
      (some "VALUE_MISMATCH")) (by decide),
   claim_duplicate_reference.2 dbG blockDup (by decide) (by decide) (by decide)⟩
